import Mathlib

/-!
# Shallow embedding of the test-case evaluation engine

This file embeds, in Lean, the core of the `zidonghuaceping` evaluation
package: the structure parser and scorer (`structure_metric.py`), the
quality scorer (`quality_metric.py`), the uniqueness analyzer
(`uniqueness_metric.py`), the coverage analyzer (`coverage_metric.py`),
and the orchestrating evaluator (`evaluator.py`).  Theorems at the end
check the specification's claims against these definitions.

Modelling conventions:
* A Python `str` is a `List Char` (`Str`).  Character-level operations
  (`strip`, `lower`, `split`) are defined to match CPython semantics on
  the character ranges the program manipulates (ASCII plus CJK); in
  particular `Char.toLower` performs the ASCII lowering, which agrees
  with `str.lower` on every character appearing in the fixed keyword
  tables of the source.
* Python floats are modelled as rationals (`ℚ`): arithmetic is exact.
* Regular-expression searches in the source are alternations of
  literals and simple character-class patterns; each is translated into
  the equivalent explicit scan, with the (deterministic) backtracking
  behaviour of `re` reproduced where it matters.
-/

namespace BDEval

/-- Program text: a Python `str` as a list of characters. -/
abbrev Str := List Char

/-- Convenience for writing concrete texts in statements. -/
def str (s : String) : Str := s.data

/-- Whitespace recognised by Python's `str.strip()` / `\s` (ASCII part;
the fixed tables of the program contain no exotic Unicode spaces). -/
def isPySpace (c : Char) : Bool :=
  c = ' ' || c = '\t' || c = '\n' || c = '\r' || c = '\x0b' || c = '\x0c'

/-- Python `str.strip()`. -/
def pyStrip (l : Str) : Str :=
  ((l.dropWhile isPySpace).reverse.dropWhile isPySpace).reverse

/-- Python `text.split('\n')`: always returns at least one piece. -/
def splitNl : Str → List Str
  | [] => [[]]
  | c :: cs =>
    let r := splitNl cs
    if c = '\n' then [] :: r
    else (c :: r.headI) :: r.tail

/-- Python `pat in hay` (substring containment). -/
def containsSub (hay pat : Str) : Bool :=
  hay.tails.any fun t => pat.isPrefixOf t

/-- `True` iff any needle of `pats` occurs in `hay`
(models `re.search("a|b|…", hay)` for literal alternations). -/
def containsAny (hay : Str) (pats : List Str) : Bool :=
  pats.any fun p => containsSub hay p

/-! ## Structure parser (`StructureMetric.extract_structure`) -/

/-- The four structure sections of a test case. -/
inductive Sec
  | title
  | precondition
  | steps
  | expected_result
deriving DecidableEq, Repr

/-- The `structure` dictionary: one (possibly empty) text per section. -/
structure St where
  title : Str
  precondition : Str
  steps : Str
  expected_result : Str
deriving DecidableEq, Repr

def St.get (s : St) : Sec → Str
  | .title => s.title
  | .precondition => s.precondition
  | .steps => s.steps
  | .expected_result => s.expected_result

def St.set (s : St) : Sec → Str → St
  | .title, v => { s with title := v }
  | .precondition, v => { s with precondition := v }
  | .steps, v => { s with steps := v }
  | .expected_result, v => { s with expected_result := v }

/-- The initial all-empty structure. -/
def emptySt : St := ⟨[], [], [], []⟩

/-- `StructureMetric.KEYWORDS`, in dictionary insertion order. -/
def KEYWORDS : List (Sec × List Str) :=
  [ (.title, [str "标题", str "用例名称", str "测试用例", str "case name", str "title"]),
    (.precondition,
      [str "前置条件", str "前提条件", str "precondition", str "前置", str "prerequisite"]),
    (.steps, [str "操作步骤", str "步骤", str "操作", str "steps", str "操作流程", str "流程"]),
    (.expected_result,
      [str "预期结果", str "期望结果", str "预期", str "expected result", str "预期输出", str "结果"]) ]

/-- `StructureMetric._detect_section`: first section (in dictionary
order) one of whose keywords occurs in the lowercased line. -/
def detect_section (line : Str) : Option Sec :=
  let low := line.map Char.toLower
  (KEYWORDS.find? fun p => p.2.any fun kw => containsSub low kw).map (·.1)

/-- The stripped, non-blank lines of a text, as produced by the loop
`for line in test_case.split('\n'): line = line.strip(); if not line: continue`. -/
def cleanLines (t : Str) : List Str :=
  ((splitNl t).map pyStrip).filter fun l => !l.isEmpty

/-- `'\n'.join(current_content).strip()`. -/
def joinContent (content : List Str) : Str :=
  pyStrip (List.intercalate ['\n'] content)

/-- Flush the currently accumulating section into the structure. -/
def flushSt (cur : Option Sec) (content : List Str) (acc : St) : St :=
  match cur with
  | some c => acc.set c (joinContent content)
  | none => acc

/-- The line loop of `extract_structure`, over already-cleaned lines. -/
def extractLoop : Option Sec → List Str → St → List Str → St
  | cur, content, acc, [] => flushSt cur content acc
  | cur, content, acc, l :: ls =>
    match detect_section l with
    | some sec => extractLoop (some sec) [l] (flushSt cur content acc) ls
    | none => extractLoop cur (if cur.isSome then content ++ [l] else content) acc ls

/-- `StructureMetric.extract_structure`. -/
def extract_structure (t : Str) : St :=
  extractLoop none [] emptySt (cleanLines t)

/-- The canonical section order used when re-joining a structure. -/
def canonicalSecs : List Sec := [.title, .precondition, .steps, .expected_result]

/-- Concatenate the non-empty sections of a structure, newline-separated,
in canonical order (the rejoin operation of the idempotence property). -/
def rejoinStructure (e : St) : Str :=
  List.intercalate ['\n'] ((canonicalSecs.map e.get).filter fun v => !v.isEmpty)

/-! ## Structure scorer (`StructureMetric` scoring half) -/

/-- One non-overlapping match of `\d+\.|步骤\d+` starting at the head of
`l`, returning the matched length.  `\d+` is greedy; giving digits back
never helps (a shorter digit run is followed by a digit, not `.`), so
the scan is deterministic. -/
def matchStepToken (l : Str) : Option Nat :=
  let d := (l.takeWhile Char.isDigit).length
  let alt1 := if d ≠ 0 && ((l.drop d).head? == some '.') then some (d + 1) else none
  let alt2 :=
    match l with
    | '步' :: '骤' :: rest =>
      let e := (rest.takeWhile Char.isDigit).length
      if e ≠ 0 then some (2 + e) else none
    | _ => none
  alt1 <|> alt2

/-- `len(re.findall(r'\d+\.|步骤\d+', content))`: scan left to right,
jumping over each non-overlapping match.  The fuel argument only makes
the recursion structural; every match consumes at least one character,
so fuel `l.length` never runs out. -/
def countStepTokensGo : Nat → Str → Nat
  | _, [] => 0
  | 0, _ :: _ => 0
  | fuel + 1, c :: cs =>
    match matchStepToken (c :: cs) with
    | some k => 1 + countStepTokensGo fuel (cs.drop (k - 1))
    | none => countStepTokensGo fuel cs

def countStepTokens (l : Str) : Nat := countStepTokensGo l.length l

/-- `StructureMetric.check_element_presence` for one section:
`bool(content and len(content.strip()) > 0)`. -/
def check_element_presence (s : St) (c : Sec) : Bool :=
  !(pyStrip (s.get c)).isEmpty

/-- `StructureMetric.check_element_quality` for one section. -/
def check_element_quality (s : St) (c : Sec) : ℚ :=
  let content := s.get c
  if content.isEmpty then 0
  else
    let n := (pyStrip content).length
    match c with
    | .title =>
      if 10 ≤ n ∧ n ≤ 50 then 1
      else if (5 ≤ n ∧ n < 10) ∨ (50 < n ∧ n ≤ 100) then 0.7
      else 0.4
    | .precondition => if 20 ≤ n then 1 else if 10 ≤ n then 0.6 else 0.3
    | .steps =>
      let sc := countStepTokens content
      if 50 ≤ n ∧ 2 ≤ sc then 1
      else if 30 ≤ n ∧ 1 ≤ sc then 0.7
      else 0.4
    | .expected_result => if 20 ≤ n then 1 else if 10 ≤ n then 0.6 else 0.3

/-- The default section weights of `StructureMetric.__init__`. -/
def structureWeight : Sec → ℚ
  | .title => 0.1
  | .precondition => 0.2
  | .steps => 0.4
  | .expected_result => 0.3

/-- `StructureMetric.calculate_completeness`. -/
def calculate_completeness (t : Str) : ℚ :=
  let s := extract_structure t
  (canonicalSecs.map fun c =>
      ((if check_element_presence s c then (1 : ℚ) else 0) * 0.5
        + check_element_quality s c * 0.5) * structureWeight c).sum

/-! ## Quality scorer (`QualityMetric`) -/

/-- `sum(1 for w in words if w in text)`: how many of the listed words
occur in the text (membership, not occurrence count). -/
def countContaining (text : Str) (words : List Str) : Nat :=
  (words.filter fun w => containsSub text w).length

def vague_words : List Str :=
  [str "可能", str "也许", str "似乎", str "大概", str "大约", str "左右", str "等等", str "之类"]

def action_verbs : List Str :=
  [str "点击", str "输入", str "选择", str "勾选", str "取消",
   str "打开", str "关闭", str "提交", str "确认", str "删除"]

def result_keywords : List Str :=
  [str "显示", str "出现", str "成功", str "失败", str "错误", str "提示", str "返回", str "跳转"]

def ui_elements : List Str :=
  [str "按钮", str "输入框", str "下拉框", str "复选框", str "单选框",
   str "文本框", str "链接", str "菜单"]

/-- `QualityMetric.check_clarity`. -/
def check_clarity (text : Str) : ℚ :=
  if text.isEmpty then 0
  else
    let vague := countContaining text vague_words
    let action := countContaining text action_verbs
    let res := countContaining text result_keywords
    let vague_penalty := min ((vague : ℚ) * 0.1) 0.3
    let action_bonus := min ((action : ℚ) * 0.05) 0.3
    let result_bonus := min ((res : ℚ) * 0.05) 0.2
    max 0 (min 1 (0.5 - vague_penalty + action_bonus + result_bonus))

/-- One match of `^\s*\d+\.|步骤\d+|^-\s+` (re.MULTILINE) at the head of
`l`; `bol` says whether this position is a line start.  Each branch is
deterministic: `\s*`/`\s+`/`\d+` take their maximal runs, and
backtracking can never produce a match the maximal run misses. -/
def matchQualityStep (bol : Bool) (l : Str) : Option Nat :=
  let alt1 :=
    if bol then
      let w := (l.takeWhile isPySpace).length
      let d := ((l.drop w).takeWhile Char.isDigit).length
      if d ≠ 0 && ((l.drop (w + d)).head? == some '.') then some (w + d + 1) else none
    else none
  let alt2 :=
    match l with
    | '步' :: '骤' :: rest =>
      let e := (rest.takeWhile Char.isDigit).length
      if e ≠ 0 then some (2 + e) else none
    | _ => none
  let alt3 :=
    if bol then
      match l with
      | '-' :: rest =>
        let w := (rest.takeWhile isPySpace).length
        if w ≠ 0 then some (1 + w) else none
      | _ => none
    else none
  alt1 <|> alt2 <|> alt3

/-- `len(re.findall(r"(^\s*\d+\.|步骤\d+|^-\s+)", text, re.MULTILINE))`.
Fuel (the text length) only makes the recursion structural. -/
def countQualityStepsGo : Nat → Bool → Str → Nat
  | _, _, [] => 0
  | 0, _, _ :: _ => 0
  | fuel + 1, bol, c :: cs =>
    match matchQualityStep bol (c :: cs) with
    | some k =>
      1 + countQualityStepsGo fuel (((c :: cs).take k).getLast? == some '\n') (cs.drop (k - 1))
    | none => countQualityStepsGo fuel (c = '\n') cs

def countQualitySteps (bol : Bool) (l : Str) : Nat := countQualityStepsGo l.length bol l

/-- `QualityMetric.check_completeness`. -/
def check_completeness (s : St) : ℚ :=
  let title_len := (pyStrip s.title).length
  let precondition_len := (pyStrip s.precondition).length
  let steps_text := pyStrip s.steps
  let steps_len := steps_text.length
  let expected_len := (pyStrip s.expected_result).length
  let step_count := countQualitySteps true steps_text
  let s1 : ℚ := if 10 ≤ title_len ∧ title_len ≤ 100 then 0.15
                else if 0 < title_len then 0.08 else 0
  let s2 : ℚ := if 20 ≤ precondition_len then 0.2 else if 0 < precondition_len then 0.1 else 0
  let s3 : ℚ := if 50 ≤ steps_len ∧ 2 ≤ step_count then 0.35
                else if 30 ≤ steps_len then 0.2 else if 0 < steps_len then 0.1 else 0
  let s4 : ℚ := if 20 ≤ expected_len then 0.3 else if 0 < expected_len then 0.15 else 0
  max 0 (min 1 (s1 + s2 + s3 + s4))

/-- `re.search(r"\d+\.", t)`: some digit immediately followed by a dot. -/
def hasDigitDot (t : Str) : Bool :=
  (t.zip t.tail).any fun p => p.1.isDigit && p.2 = '.'

/-- `re.search(r"步骤\d+", t)`. -/
def hasStepNum (t : Str) : Bool :=
  t.tails.any fun s =>
    match s with
    | '步' :: '骤' :: d :: _ => d.isDigit
    | _ => false

/-- `re.search(r"^-", t, re.MULTILINE)`: some line starts with a dash. -/
def hasLineStartDash (t : Str) : Bool :=
  (splitNl t).any fun l => l.head? == some '-'

/-- `QualityMetric.check_executability`. -/
def check_executability (t : Str) : ℚ :=
  let s1 : ℚ := if hasDigitDot t || hasStepNum t || hasLineStartDash t then 0.2 else 0
  let s2 : ℚ :=
    if containsAny t [str "预期", str "期望", str "应该", str "应当", str "会"] then 0.2 else 0
  let s3 : ℚ := if containsAny t [str "输入", str "填写", str "输入框", str "文本框"] then 0.1 else 0
  max 0 (min 1 (0.5 + s1 + s2 + s3))

/-- A character matched by Python's `\w` on the scripts this program
handles: ASCII alphanumerics, underscore, and CJK unified ideographs. -/
def isWordChar (c : Char) : Bool :=
  c.isAlphanum || c = '_' || (0x4e00 ≤ c.toNat && c.toNat ≤ 0x9fa5)

/-- Maximal runs of characters satisfying `p` (the matches of `p+`),
built by a structural right fold: a satisfying character either starts
a new run or extends the run its right neighbour starts. -/
def runsBy (p : Char → Bool) : Str → List Str
  | [] => []
  | c :: cs =>
    let r := runsBy p cs
    if p c then
      match cs.head? with
      | some d => if p d then (c :: r.headI) :: r.tail else [c] :: r
      | none => [c] :: r
    else r

/-- `set(re.findall(r"\w+", t))`. -/
def wordsOf (t : Str) : Finset Str := (runsBy isWordChar t).toFinset

/-- `QualityMetric.check_independence`. -/
def check_independence (t : Str) (others : List Str) : ℚ :=
  if others.isEmpty then 1
  else
    let cw := wordsOf t
    let sims := others.map fun o =>
      let ow := wordsOf o
      if cw = ∅ ∨ ow = ∅ then (0 : ℚ)
      else
        let inter := (cw ∩ ow).card
        let u := (cw ∪ ow).card
        if 0 < u then (inter : ℚ) / u else 0
    let avg := if sims.isEmpty then 0 else sims.sum / sims.length
    max 0 (min 1 (1 - avg))

def countChar (t : Str) (c : Char) : Nat := (t.filter fun d => d = c).length

/-- `QualityMetric.check_specificity`. -/
def check_specificity (t : Str) : ℚ :=
  let ui := countContaining t ui_elements
  let s1 := min ((ui : ℚ) * 0.1) 0.3
  -- `re.search(r"[0-9]{1,}|\"[^\"]*\"|'[^']*'", t)`: a digit, or two
  -- double quotes, or two single quotes.
  let s2 : ℚ :=
    if t.any Char.isDigit || 2 ≤ countChar t (Char.ofNat 34) || 2 ≤ countChar t (Char.ofNat 39)
    then 0.3 else 0
  let s3 : ℚ := if hasDigitDot t || hasStepNum t then 0.2 else 0
  let s4 : ℚ := if containsAny t [str "验证", str "检查", str "确认", str "查看"] then 0.2 else 0
  max 0 (min 1 (s1 + s2 + s3 + s4))

/-- `QualityMetric._get_quality_level`. -/
def quality_get_quality_level (score : ℚ) : String :=
  if 0.85 ≤ score then "优秀"
  else if 0.7 ≤ score then "良好"
  else if 0.5 ≤ score then "中等"
  else "需改进"

structure QualityEval where
  clarity_score : ℚ
  completeness_score : ℚ
  executability_score : ℚ
  independence_score : ℚ
  specificity_score : ℚ
  overall_quality : ℚ
  quality_level : String
deriving DecidableEq, Repr

/-- `QualityMetric.evaluate`. -/
def quality_evaluate (t : Str) (s : St) (others : List Str) : QualityEval :=
  let c := check_clarity t
  let comp := check_completeness s
  let e := check_executability t
  let ind := check_independence t others
  let sp := check_specificity t
  let overall := c * 0.2 + comp * 0.25 + e * 0.2 + ind * 0.15 + sp * 0.2
  ⟨c, comp, e, ind, sp, overall, quality_get_quality_level overall⟩

/-! ## Uniqueness analyzer (`UniquenessMetric`), without a similarity
model: `detect_near_duplicates` takes the keyword-Jaccard fallback. -/

/-- The index pairs visited by `for i in range(n): for j in range(i+1, n)`. -/
def allPairs (n : Nat) : List (Nat × Nat) :=
  (List.range n).flatMap fun i => (List.range' (i + 1) (n - (i + 1))).map fun j => (i, j)

/-- `UniquenessMetric.detect_exact_duplicates`. -/
def detect_exact_duplicates (cases : List Str) : List (Nat × Nat) :=
  (allPairs cases.length).filter fun p =>
    pyStrip (cases.getD p.1 []) == pyStrip (cases.getD p.2 [])

/-- The character class of `UniquenessMetric._extract_keywords`.  The
source writes the pattern with ASCII quote characters, so Python parses
the line as an implicit concatenation of three string literals (the
inner pair of single quotes is an *empty* literal): the resulting class
contains the ASCII double quote but no ASCII single quote. -/
def uniqPunct : List Char :=
  ['。', '！', '？', '，', '、', '；', '：', Char.ofNat 34,
   '（', '）', '【', '】', '\n', '\t']

def uniqStopwords : List Str :=
  [str "的", str "了", str "和", str "是", str "在", str "有",
   str "用", str "可以", str "应该", str "需要", str "必须"]

/-- `UniquenessMetric._extract_keywords`: punctuation to spaces, split
on whitespace, drop one-character words and stop words. -/
def uniq_extract_keywords (t : Str) : Finset Str :=
  let cleaned := t.map fun c => if c ∈ uniqPunct then ' ' else c
  let words := runsBy (fun c => !isPySpace c) cleaned
  (words.filter fun w => 1 < w.length && !uniqStopwords.contains w).toFinset

/-- `UniquenessMetric._detect_near_duplicates_by_keywords`. -/
def detect_near_duplicates_by_keywords (cases : List Str) (threshold : ℚ) :
    List (Nat × Nat × ℚ) :=
  (allPairs cases.length).filterMap fun p =>
    let ki := uniq_extract_keywords (cases.getD p.1 [])
    let kj := uniq_extract_keywords (cases.getD p.2 [])
    if ki = ∅ ∨ kj = ∅ then none
    else
      let inter := (ki ∩ kj).card
      let u := (ki ∪ kj).card
      if 0 < u then
        let sim := (inter : ℚ) / u
        if threshold ≤ sim then some (p.1, p.2, sim) else none
      else none

/-- `len(test_cases) * (len(test_cases) - 1) / 2` (Python ints/floats;
at `n = 0` this is `0 * (-1) / 2 = 0`). -/
def maxPossiblePairs (n : Nat) : ℚ := (n : ℚ) * ((n : ℚ) - 1) / 2

/-- `UniquenessMetric.calculate_diversity_score`. -/
def calculate_diversity_score (cases : List Str) : ℚ :=
  if cases.length ≤ 1 then 1
  else
    let exact := detect_exact_duplicates cases
    let near := detect_near_duplicates_by_keywords cases 0.85
    let dup : ℚ := (exact.length : ℚ) + near.length
    let mp := maxPossiblePairs cases.length
    if mp = 0 then 1
    else max 0 (min 1 (1 - dup / mp))

def scenarioPatterns : List (String × List Str) :=
  [ ("正常场景", [str "正常", str "成功", str "正确", str "有效"]),
    ("异常场景", [str "异常", str "失败", str "错误", str "无效", str "非法"]),
    ("边界场景", [str "边界", str "极限", str "最大", str "最小", str "为空", str "空值", str "长度"]),
    ("性能场景", [str "性能", str "速度", str "响应", str "超时", str "延迟", str "并发"]),
    ("安全场景", [str "安全", str "权限", str "认证", str "授权", str "加密", str "隐私"]) ]

structure ScenarioEval where
  counts : List (String × Nat)
  covered_scenarios : Nat
  total_scenarios : Nat
  diversity_score : ℚ
deriving DecidableEq, Repr

/-- `UniquenessMetric.calculate_scenario_diversity`. -/
def calculate_scenario_diversity (cases : List Str) : ScenarioEval :=
  let counts := scenarioPatterns.map fun p =>
    (p.1, (cases.filter fun t => containsAny t p.2).length)
  let covered := (counts.filter fun p => 0 < p.2).length
  let total := scenarioPatterns.length
  ⟨counts, covered, total, if 0 < total then (covered : ℚ) / total else 0⟩

/-- `UniquenessMetric._get_quality_level`. -/
def uniq_get_quality_level (diversity deduplication : ℚ) : String :=
  let combined := (diversity + deduplication) / 2
  if 0.9 ≤ combined then "优秀"
  else if 0.75 ≤ combined then "良好"
  else if 0.6 ≤ combined then "中等"
  else "需改进"

structure UniqEval where
  total_cases : Nat
  exact_duplicates : List (Nat × Nat)
  exact_duplicate_count : Nat
  near_duplicates : List (Nat × Nat × ℚ)
  near_duplicate_count : Nat
  total_duplicate_pairs : Nat
  deduplication_rate : ℚ
  diversity_score : ℚ
  scenario_diversity : ScenarioEval
  quality_level : String
deriving DecidableEq, Repr

/-- `UniquenessMetric.evaluate` (similarity model absent). -/
def uniqueness_evaluate (cases : List Str) : UniqEval :=
  let exact := detect_exact_duplicates cases
  let near := detect_near_duplicates_by_keywords cases 0.85
  let diversity := calculate_diversity_score cases
  let scen := calculate_scenario_diversity cases
  let total := exact.length + near.length
  let mp := maxPossiblePairs cases.length
  let dedup : ℚ := 1 - (if 0 < mp then (total : ℚ) / mp else 0)
  ⟨cases.length, exact, exact.length, near, near.length, total, dedup, diversity,
    scen, uniq_get_quality_level diversity dedup⟩

/-! ## Coverage analyzer (`CoverageMetric`) -/

/-- `CoverageMetric._normalize_line`: strip, then drop the trailing run
matched by `[。．.\s]+$`. -/
def isLineJunk (c : Char) : Bool :=
  c = '。' || c = '．' || c = '.' || isPySpace c

def normalize_line (l : Str) : Str :=
  let s := pyStrip l
  (s.reverse.dropWhile isLineJunk).reverse

/-- Line boundaries recognised by Python `str.splitlines` that this
program's inputs can contain. -/
def isLineBreak (c : Char) : Bool :=
  c = '\n' || c = '\r' || c = '\x0b' || c = '\x0c'

/-- Python `str.splitlines()` (no trailing empty piece).  Fuel (the
text length) only makes the recursion structural: every step past a
line boundary consumes at least one character. -/
def splitLinesPyGo : Nat → Str → List Str
  | _, [] => []
  | 0, _ :: _ => []
  | fuel + 1, c :: cs =>
    let line := (c :: cs).takeWhile fun x => !isLineBreak x
    match (c :: cs).dropWhile fun x => !isLineBreak x with
    | '\r' :: '\n' :: r => line :: splitLinesPyGo fuel r
    | _ :: r => line :: splitLinesPyGo fuel r
    | [] => [line]

def splitLinesPy (t : Str) : List Str := splitLinesPyGo t.length t

def isCJK (c : Char) : Bool := 0x4e00 ≤ c.toNat && c.toNat ≤ 0x9fa5

/-- The class `[A-Za-z0-9_@#\+\-]` of `_split_tokens`. -/
def isLatinTok (c : Char) : Bool :=
  c.isAlphanum || c = '_' || c = '@' || c = '#' || c = '+' || c = '-'

def charClass (c : Char) : Option Bool :=
  if isCJK c then some true else if isLatinTok c then some false else none

/-- `re.findall(r"[一-龥]+|[A-Za-z0-9_@#\+\-]+", text)`: maximal runs
of one class at a time (the classes are disjoint), built by the same
structural right fold as `runsBy`. -/
def tokenSpans : Str → List Str
  | [] => []
  | c :: cs =>
    let r := tokenSpans cs
    match charClass c with
    | none => r
    | some k =>
      match cs.head? with
      | some d => if charClass d = some k then (c :: r.headI) :: r.tail else [c] :: r
      | none => [c] :: r

def dedupKeepOrder (l : List Str) : List Str :=
  l.foldl (fun acc x => if acc.contains x then acc else acc ++ [x]) []

/-- The 2-gram/3-gram pool of a long CJK span, capped at 15.  CPython
iterates the `grams` *set* in an unspecified (hash-driven) order before
taking the first 15; we fix the deterministic insertion order here.  No
claim in this development depends on which 15 grams survive the cap. -/
def gramsOf (span : Str) : List Str :=
  (dedupKeepOrder
    (((List.range (span.length - 1)).map fun i => (span.drop i).take 2) ++
      ((List.range (span.length - 2)).map fun i => (span.drop i).take 3))).take 15

/-- `CoverageMetric._split_tokens`. -/
def split_tokens (t : Str) : List Str :=
  (tokenSpans t).flatMap fun span =>
    if span.all fun c => c.toNat < 128 then [span.map Char.toLower]
    else if span.length ≤ 3 then [span]
    else gramsOf span

/-- `CoverageMetric.SYNONYMS` in dictionary order. -/
def SYNONYMS : List (Str × Str) :=
  [ (str "登陆", str "登录"), (str "登入", str "登录"), (str "log", str "登录"),
    (str "login", str "登录"), (str "logon", str "登录"),
    (str "用户名", str "账号"), (str "账户", str "账号"), (str "user", str "账号"),
    (str "account", str "账号"),
    (str "口令", str "密码"), (str "pass", str "密码"), (str "password", str "密码"),
    (str "图形验证码", str "验证码"), (str "captcha", str "验证码"),
    (str "系统首页", str "首页"), (str "主页", str "首页"), (str "主页面", str "首页"),
    (str "home", str "首页"),
    (str "重定向", str "跳转"), (str "redirect", str "跳转"),
    (str "通过", str "成功"),
    (str "失败", str "错误"),
    (str "填写", str "输入"),
    (str "登录页面", str "登录页"), (str "登陆页面", str "登录页"), (str "登陆页", str "登录页") ]

def isAsciiStr (t : Str) : Bool := t.all fun c => c.toNat < 128

def synLookup (k : Str) : Str :=
  ((SYNONYMS.find? fun p => p.1 == k).map (·.2)).getD k

/-- `CoverageMetric._normalize_tokens`. -/
def normalize_tokens (tokens : Finset Str) : Finset Str :=
  tokens.image fun t => synLookup (if isAsciiStr t then t.map Char.toLower else t)

def STOPWORDS_REQ : List Str :=
  [str "的", str "了", str "和", str "是", str "在", str "有", str "用", str "可以",
   str "应该", str "需要", str "必须", str "用户", str "系统", str "进行", str "操作",
   str "能够", str "支持", str "以及", str "并且", str "如果", str "当", str "则",
   str "对于", str "针对", str "以便", str "保证", str "确保", str "提供", str "实现",
   str "相关", str "功能", str "页面", str "界面"]

def STOPWORDS_CASE : List Str :=
  STOPWORDS_REQ ++
    [str "点击", str "输入", str "打开", str "然后", str "并且", str "以及",
     str "确认", str "提交", str "查看"]

/-- `CoverageMetric.extract_keywords_from_requirement`. -/
def extract_keywords_from_requirement (r : Str) : Finset Str :=
  let tokens := (split_tokens r).toFinset
  normalize_tokens (tokens.filter fun t =>
    1 < t.length ∧
      ¬ STOPWORDS_REQ.contains (if isAsciiStr t then t.map Char.toLower else t))

/-- `CoverageMetric.extract_keywords_from_test_case`. -/
def extract_keywords_from_test_case (tc : Str) : Finset Str :=
  let tokens := (split_tokens tc).toFinset
  normalize_tokens (tokens.filter fun t =>
    1 < t.length ∧
      ¬ STOPWORDS_CASE.contains (if isAsciiStr t then t.map Char.toLower else t))

def SECTION_TITLES : List Str :=
  [str "业务规则", str "功能规则", str "功能需求", str "需求列表", str "需求点",
   str "规则", str "业务约束", str "验收标准"]

def leadHashes (s : Str) : Nat := (s.takeWhile fun c => c = '#').length

/-- `re.match(r"^\s*#{1,6}\s*T\s*$", line)` on an already-stripped line
(the section titles contain no `#` and no whitespace). -/
def matchesTitleLine (s T : Str) : Bool :=
  let h := leadHashes s
  1 ≤ h && h ≤ 6 && ((s.drop h).dropWhile isPySpace == T)

/-- The level assigned by `re.match(r"^(?P<hash>#{1,6})\s*(?P<title>.+?)\s*$", s)`
on a stripped line: the `#{1,6}` group is greedy but backtracks once
when nothing is left for `(.+?)`. -/
def headingLevel (s : Str) : Option Nat :=
  let h := leadHashes s
  if 1 ≤ h && 2 ≤ s.length then
    some (if 6 < h then 6 else if (s.drop h).isEmpty then h - 1 else h)
  else none

/-- `CoverageMetric._extract_section_text`. -/
def extract_section_text (prd : Str) (titles : List Str) : Str :=
  let lines := splitLinesPy prd
  match lines.findIdx? (fun raw => titles.any fun T => matchesTitleLine (pyStrip raw) T) with
  | none => []
  | some i =>
    let level := (headingLevel (pyStrip (lines.getD i []))).getD 2
    let body := (lines.drop (i + 1)).takeWhile fun l =>
      match headingLevel (pyStrip l) with
      | some k => !(k ≤ level)
      | none => true
    List.intercalate ['\n'] body

/-- The `(.+)$` group after `\s*`, with `re`'s backtracking: if only
whitespace remains, `.+` still grabs the last whitespace character. -/
def afterWsGroup (r : Str) : Option Str :=
  if r.isEmpty then none
  else
    let w := (r.takeWhile isPySpace).length
    if (r.drop w).isEmpty then some (r.drop (w - 1)) else some (r.drop w)

/-- The `(.+)$` group after `\s+`. -/
def afterWsPlusGroup (r : Str) : Option Str :=
  let w := (r.takeWhile isPySpace).length
  if w = 0 then none
  else if (r.drop w).isEmpty then (if 2 ≤ w then some (r.drop (w - 1)) else none)
  else some (r.drop w)

/-- First `BULLET_PATTERNS` entry matching a stripped line, returning
the captured group. -/
def bulletGroup (l : Str) : Option Str :=
  let w0 := (l.takeWhile isPySpace).length
  let r := l.drop w0
  let p1 :=
    match r with
    | c :: rest => if c = '-' || c = '*' || c = '•' then afterWsPlusGroup rest else none
    | [] => none
  let p2 :=
    let d := (r.takeWhile Char.isDigit).length
    if d ≠ 0 then
      match r.drop d with
      | c :: rest => if c = '.' || c = '|' || c = '、' || c = ')' then afterWsGroup rest else none
      | [] => none
    else none
  let p3 :=
    let r2 := match r with
      | c :: rest => if c = '（' || c = '(' then rest else r
      | [] => r
    let d := (r2.takeWhile Char.isDigit).length
    if d ≠ 0 then
      match r2.drop d with
      | c :: rest => if c = '）' || c = ')' then afterWsGroup rest else none
      | [] => none
    else none
  p1 <|> p2 <|> p3

/-- `CoverageMetric._extract_bullets`. -/
def extract_bullets (sectionText : Str) : List Str :=
  if sectionText.isEmpty then []
  else
    (splitLinesPy sectionText).filterMap fun raw =>
      match bulletGroup (pyStrip raw) with
      | some g =>
        let item := normalize_line g
        if item.isEmpty then none else some item
      | none => none

def isSentenceEnd (c : Char) : Bool := c = '。' || c = '！' || c = '？'

/-- One match of `PREFIX[^。！？]*[。！？]` at the head of `l` (the whole
match is returned; `findall` has no groups here). -/
def matchSentenceAt (pre : Str → Bool) (preLen : Nat) (l : Str) : Option Str :=
  if pre l then
    let body := (l.drop preLen).takeWhile fun c => !isSentenceEnd c
    match (l.drop preLen).drop body.length with
    | _ :: _ => some (l.take (preLen + body.length + 1))
    | [] => none
  else none

/-- `re.findall` for one sentence pattern: non-overlapping scan.  Fuel
(the text length) only makes the recursion structural. -/
def findAllSentencesGo (pre : Str → Bool) (preLen : Nat) : Nat → Str → List Str
  | _, [] => []
  | 0, _ :: _ => []
  | fuel + 1, c :: cs =>
    match matchSentenceAt pre preLen (c :: cs) with
    | some m => m :: findAllSentencesGo pre preLen fuel (cs.drop (m.length - 1))
    | none => findAllSentencesGo pre preLen fuel cs

def findAllSentences (pre : Str → Bool) (preLen : Nat) (l : Str) : List Str :=
  findAllSentencesGo pre preLen l.length l

def preShouldA (l : Str) : Bool :=
  match l with
  | a :: b :: _ => (a = '应' || a = '需' || a = '必') && b = '该'
  | _ => false

def preShouldB (l : Str) : Bool :=
  match l with
  | a :: b :: _ => (a = '应' || a = '需' || a = '必') && b = '要'
  | _ => false

def preUser (l : Str) : Bool :=
  match l with
  | a :: b :: _ => a = '用' && b = '户'
  | _ => false

def preSystem (l : Str) : Bool :=
  match l with
  | a :: b :: _ => a = '系' && b = '统'
  | _ => false

/-- `CoverageMetric._extract_sentence_requirements`. -/
def extract_sentence_requirements (prd : Str) : List Str :=
  let reqs := findAllSentences preShouldA 2 prd ++ findAllSentences preShouldB 2 prd
      ++ findAllSentences preUser 2 prd ++ findAllSentences preSystem 2 prd
  (reqs.map normalize_line).filter fun r => !r.isEmpty

/-- The final de-duplication/cleaning loop of `extract_requirements`. -/
def cleanupReqs (reqs : List Str) : List Str :=
  reqs.foldl (fun acc r =>
    let rr := normalize_line r
    if rr.length < 2 || acc.contains rr then acc else acc ++ [rr]) []

/-- `CoverageMetric.extract_requirements`. -/
def extract_requirements (prd : Str) : List Str :=
  let sectionText := extract_section_text prd SECTION_TITLES
  let bullets := extract_bullets sectionText
  let sent := extract_sentence_requirements prd
  let requirements := bullets ++ sent
  cleanupReqs (if requirements.isEmpty then extract_bullets prd else requirements)

/-- Whether one requirement counts as covered by some case:
`max(Jaccard, req_ratio, case_ratio) >= threshold`; a requirement with
an empty keyword set is never covered. -/
def reqIsCovered (req : Str) (cases : List Str) (threshold : ℚ) : Bool :=
  let rk := extract_keywords_from_requirement req
  if rk = ∅ then false
  else cases.any fun tc =>
    let ck := extract_keywords_from_test_case tc
    if ck = ∅ then false
    else
      let inter := (rk ∩ ck).card
      if inter = 0 then false
      else
        let u := (rk ∪ ck).card
        let jaccard : ℚ := if u ≠ 0 then (inter : ℚ) / u else 0
        let req_ratio : ℚ := (inter : ℚ) / rk.card
        let case_ratio : ℚ := (inter : ℚ) / ck.card
        threshold ≤ max jaccard (max req_ratio case_ratio)

structure ReqCoverage where
  coverage_rate : ℚ
  covered_count : Nat
  uncovered_count : Nat
  total_requirements : Nat
  covered_requirements : List Str
  uncovered_requirements : List Str
  threshold_used : ℚ
deriving DecidableEq, Repr

/-- `CoverageMetric.calculate_requirement_coverage` (the diagnostic
`coverage_details` map is not modelled; every scored field is). -/
def calculate_requirement_coverage (reqs cases : List Str) (threshold : ℚ) : ReqCoverage :=
  if reqs.isEmpty then ⟨1, 0, 0, 0, [], [], threshold⟩
  else
    let covered := reqs.filter fun r => reqIsCovered r cases threshold
    let uncovered := reqs.filter fun r => !reqIsCovered r cases threshold
    ⟨(covered.length : ℚ) / reqs.length, covered.length, uncovered.length,
      reqs.length, covered, uncovered, threshold⟩

def featurePatterns : List (String × List Str) :=
  [ ("正常流程", [str "正常", str "成功", str "成功登录", str "正确"]),
    ("异常流程", [str "异常", str "失败", str "错误", str "不正确", str "无效"]),
    ("边界值", [str "边界", str "极限", str "最大", str "最小", str "为空", str "空值"]),
    ("权限控制", [str "权限", str "权限检查", str "访问控制", str "认证", str "授权"]),
    ("数据验证", [str "验证", str "校验", str "检查", str "合法", str "非法"]),
    ("性能", [str "性能", str "速度", str "响应", str "超时", str "延迟"]),
    ("并发", [str "并发", str "同时", str "并行", str "竞态"]) ]

structure FeatureCoverage where
  counts : List (String × Nat)
  covered_features : Nat
  total_features : Nat
  feature_coverage_rate : ℚ
deriving DecidableEq, Repr

/-- `CoverageMetric.calculate_feature_coverage`. -/
def calculate_feature_coverage (cases : List Str) : FeatureCoverage :=
  let counts := featurePatterns.map fun p =>
    (p.1, (cases.filter fun t => containsAny t p.2).length)
  let covered := (counts.filter fun p => 0 < p.2).length
  let total := featurePatterns.length
  ⟨counts, covered, total, if 0 < total then (covered : ℚ) / total else 0⟩

/-- `COVERAGE_CONFIG["requirement_overlap_threshold"]`. -/
def requirementOverlapThreshold : ℚ := 0.3

structure CoverageEval where
  requirement_coverage : ReqCoverage
  feature_coverage : FeatureCoverage
  overall_coverage : ℚ
  requirements_extracted : Nat
deriving DecidableEq, Repr

/-- `CoverageMetric.evaluate`. -/
def coverage_evaluate (prd : Str) (cases : List Str) : CoverageEval :=
  let reqs := extract_requirements prd
  let rc := calculate_requirement_coverage reqs cases requirementOverlapThreshold
  let fc := calculate_feature_coverage cases
  ⟨rc, fc, rc.coverage_rate * 0.6 + fc.feature_coverage_rate * 0.4, reqs.length⟩

/-! ## Evaluator (`Evaluator`)

The evaluator is modelled in the configuration in which no similarity
model is available (`use_similarity_model=False`, or the model failed to
load — `evaluator.py` lines 56–58): `similarity_metric` is `None`, so
the reference-case similarity branch of `evaluate_batch` never runs and
`UniquenessMetric` takes its keyword fallback. -/

structure CaseEval where
  case_index : Nat
  case_text : Str
  case_structure : St
  structure_score : ℚ
  quality_score : ℚ
  quality_details : QualityEval
deriving DecidableEq, Repr

/-- `Evaluator.evaluate_single_case`.  Note that the caller
(`evaluate_batch`) passes the *whole* batch as `other_cases`. -/
def evaluate_single_case (tc : Str) (idx : Nat) (other_cases : List Str) : CaseEval :=
  let st := extract_structure tc
  let quality_eval := quality_evaluate tc st other_cases
  ⟨idx, tc, st, calculate_completeness tc, quality_eval.overall_quality, quality_eval⟩

inductive MKey
  | structural
  | coverage
  | quality
  | similarity
  | uniqueness
deriving DecidableEq, Repr

/-- `config.METRIC_WEIGHTS`. -/
def METRIC_WEIGHTS : MKey → ℚ
  | .structural => 0.2
  | .coverage => 0.25
  | .quality => 0.25
  | .similarity => 0.2
  | .uniqueness => 0.1

/-- The `aggregate_scores` dictionary: three keys always present, the
coverage key only when a PRD was supplied, the similarity key never (no
similarity model in this configuration). -/
structure AggScores where
  avg_structure_score : ℚ
  avg_quality_score : ℚ
  uniqueness_score : ℚ
  coverage_score : Option ℚ
  similarity_score : Option ℚ
deriving DecidableEq, Repr

def AggScores.get (a : AggScores) : MKey → Option ℚ
  | .structural => some a.avg_structure_score
  | .quality => some a.avg_quality_score
  | .uniqueness => some a.uniqueness_score
  | .coverage => a.coverage_score
  | .similarity => a.similarity_score

/-- The insertion order of `score_mapping` in
`Evaluator._calculate_overall_score`. -/
def scoreMappingOrder : List MKey :=
  [.structural, .quality, .uniqueness, .coverage, .similarity]

/-- `Evaluator._calculate_overall_score`. -/
def calculate_overall_score (a : AggScores) : ℚ :=
  let acc := scoreMappingOrder.foldl (fun acc k =>
    match a.get k with
    | some s => (acc.1 + s * METRIC_WEIGHTS k, acc.2 + METRIC_WEIGHTS k)
    | none => acc) ((0 : ℚ), (0 : ℚ))
  if 0 < acc.2 then acc.1 / acc.2 else 0

/-- Python truthiness of the optional PRD argument (`if prd_text:`). -/
def prdTruthy : Option Str → Bool
  | none => false
  | some p => !p.isEmpty

def listMean (l : List ℚ) : ℚ := if l.isEmpty then 0 else l.sum / l.length

structure BatchResult where
  total_cases : Nat
  individual_evaluations : List CaseEval
  aggregate_scores : AggScores
  uniqueness_analysis : UniqEval
  coverage_analysis : Option CoverageEval
  overall_score : ℚ
deriving DecidableEq, Repr

/-- `Evaluator.evaluate_batch` (no similarity model configured). -/
def evaluate_batch (generated_cases : List Str) (prd_text : Option Str) : BatchResult :=
  let individual := generated_cases.mapIdx fun idx c =>
    evaluate_single_case c idx generated_cases
  let uniq := uniqueness_evaluate generated_cases
  let cov :=
    if prdTruthy prd_text then some (coverage_evaluate (prd_text.getD []) generated_cases)
    else none
  let agg : AggScores :=
    ⟨listMean (individual.map (·.structure_score)),
      listMean (individual.map (·.quality_score)),
      uniq.diversity_score, cov.map (·.overall_coverage), none⟩
  ⟨generated_cases.length, individual, agg, uniq, cov, calculate_overall_score agg⟩

structure Comparison where
  version1 : BatchResult
  version2 : BatchResult
  improvements : MKey → Option ℚ
  regressions : MKey → Option ℚ
  overall_improvement : ℚ

/-- `Evaluator.compare_versions`: positive deltas per shared metric key
go to `improvements`, negative ones (as magnitudes) to `regressions`. -/
def compare_versions (v1 v2 : List Str) (prd_text : Option Str) : Comparison :=
  let e1 := evaluate_batch v1 prd_text
  let e2 := evaluate_batch v2 prd_text
  let imp := fun k =>
    match e1.aggregate_scores.get k, e2.aggregate_scores.get k with
    | some s1, some s2 => if 0 < s2 - s1 then some (s2 - s1) else none
    | _, _ => none
  let reg := fun k =>
    match e1.aggregate_scores.get k, e2.aggregate_scores.get k with
    | some s1, some s2 => if s2 - s1 < 0 then some |s2 - s1| else none
    | _, _ => none
  ⟨e1, e2, imp, reg,
    if 0 < e1.overall_score then
      (e2.overall_score - e1.overall_score) / e1.overall_score
    else 0⟩

/-! ## Shape predicates for the structure parser (used by the
idempotence analysis) -/

/-- A line as produced by `cleanLines`: stripped, non-blank, and free
of newlines. -/
def CleanLine (l : Str) : Prop := pyStrip l = l ∧ l ≠ [] ∧ '\n' ∉ l

/-- The shape of every non-empty section value produced by
`extract_structure`: a newline join of clean lines whose first line
detects exactly this section and whose remaining lines detect none. -/
def GoodBlock (c : Sec) (v : Str) : Prop :=
  ∃ h rest, v = List.intercalate ['\n'] (h :: rest) ∧ CleanLine h ∧
    (∀ l ∈ rest, CleanLine l) ∧ detect_section h = some c ∧
    ∀ l ∈ rest, detect_section l = none

/-- The non-empty sections of a structure, in canonical order, each
split back into its lines. -/
def blocksOf (e : St) : List (Sec × List Str) :=
  canonicalSecs.filterMap fun c =>
    if (e.get c).isEmpty then none else some (c, splitNl (e.get c))

example : cleanLines (str "  a \n\n b") = [str "a", str "b"] := by decide

unseal Rat.add Rat.mul Rat.inv Rat.sub Rat.ofScientific in
example : (uniqueness_evaluate [str "ab cd", str "ab cd"]).exact_duplicate_count = 1 := by decide

unseal Rat.add Rat.mul Rat.inv Rat.sub Rat.ofScientific in
example : (uniqueness_evaluate [str "ab cd", str "ab cd"]).near_duplicate_count = 1 := by decide

unseal Rat.add Rat.mul Rat.inv Rat.sub Rat.ofScientific in
example : (uniqueness_evaluate [str "ab cd", str "ab cd"]).deduplication_rate = -1 := by decide

unseal Rat.add Rat.mul Rat.inv Rat.sub Rat.ofScientific in
example : (uniqueness_evaluate [str "ab cd", str "ab cd"]).diversity_score = 0 := by decide

example : extract_keywords_from_requirement (str "可以") = ∅ := by decide

example :
    uniq_extract_keywords ['a', Char.ofNat 39, ' ', 'b', Char.ofNat 39] ≠ ∅ := by decide

unseal Rat.add Rat.mul Rat.inv Rat.sub Rat.ofScientific in
example :
    (uniqueness_evaluate
        [['a', Char.ofNat 39, ' ', 'b', Char.ofNat 39],
         ['a', Char.ofNat 39, ' ', 'b', Char.ofNat 39]]).near_duplicate_count = 1 := by decide
example : countQualitySteps true (str "- aaa\n- bbb") = 2 := by decide
example : countStepTokens (str "1. aaa 2. bbb 步骤3") = 3 := by decide

unseal Rat.add Rat.mul Rat.inv Rat.sub Rat.ofScientific in
example : uniq_get_quality_level 0.85 0.85 = "良好" := by decide

unseal Rat.add Rat.mul Rat.inv Rat.sub Rat.ofScientific in
example : quality_get_quality_level 0.85 = "优秀" := by decide

unseal Rat.add Rat.mul Rat.inv Rat.sub Rat.ofScientific in
example :
    ((evaluate_batch [str "click the button"] none).individual_evaluations.map
      fun e => e.quality_details.independence_score) = [0] := by decide

example : check_independence (str "click the button") [] = 1 := by decide

example :
    extract_requirements (str "## 业务规则\n- 用户必须先登录\n- 密码长度大于8\n## 其他\nx")
      = [str "用户必须先登录", str "密码长度大于8"] := by decide

unseal Rat.add Rat.mul Rat.inv Rat.sub Rat.ofScientific in
example :
    (calculate_requirement_coverage [str "可以"] [str "可以"] 0.3).coverage_rate = 0 := by
  decide

/-! ## Helper lemmas -/

/-- The nested pair loop visits `n*(n-1)/2` index pairs. -/
theorem length_allPairs (n : ℕ) : 2 * (allPairs n).length = n * (n - 1) := by
  have h1 : (allPairs n).length = ∑ i in Finset.range n, (n - (i + 1)) := by
    rw [allPairs, List.length_flatMap]
    simp only [Function.comp_def, List.length_map, List.length_range']
    rfl
  rw [h1]
  have h2 : ∑ i in Finset.range n, (n - (i + 1)) = ∑ i in Finset.range n, (n - 1 - i) :=
    Finset.sum_congr rfl fun i _ => by omega
  rw [h2, Finset.sum_range_reflect (fun j => j) n, Nat.mul_comm]
  exact Finset.sum_range_id_mul_two n

theorem splitNl_cons (c : Char) (cs : Str) :
    splitNl (c :: cs) =
      if c = '\n' then [] :: splitNl cs
      else (c :: (splitNl cs).headI) :: (splitNl cs).tail := rfl

theorem splitNl_append_cons (l r : Str) (h : '\n' ∉ l) :
    splitNl (l ++ '\n' :: r) = l :: splitNl r := by
  induction l with
  | nil => simp [splitNl]
  | cons c cs ih =>
    have hc : c ≠ '\n' := fun hh => h (hh ▸ List.mem_cons_self c cs)
    have hcs : '\n' ∉ cs := fun hh => h (List.mem_cons_of_mem c hh)
    rw [List.cons_append, splitNl_cons, if_neg hc, ih hcs]
    rfl

theorem splitNl_eq_single (l : Str) (h : '\n' ∉ l) : splitNl l = [l] := by
  induction l with
  | nil => rfl
  | cons c cs ih =>
    have hc : c ≠ '\n' := fun hh => h (hh ▸ List.mem_cons_self c cs)
    have hcs : '\n' ∉ cs := fun hh => h (List.mem_cons_of_mem c hh)
    rw [splitNl_cons, if_neg hc, ih hcs]
    rfl

theorem intercalate_single (sep : Str) (x : Str) : List.intercalate sep [x] = x := by
  simp [List.intercalate]

theorem splitNl_append (x y : Str) : splitNl (x ++ '\n' :: y) = splitNl x ++ splitNl y := by
  induction x with
  | nil => rfl
  | cons c cs ih =>
    rw [List.cons_append, splitNl_cons, splitNl_cons, ih]
    by_cases hc : c = '\n'
    · rw [if_pos hc, if_pos hc]
      rfl
    · rw [if_neg hc, if_neg hc]
      have hne : splitNl cs ≠ [] := by
        induction cs with
        | nil => simp [splitNl]
        | cons d ds _ => rw [splitNl_cons]; split_ifs <;> simp
      obtain ⟨z, zs, hz⟩ : ∃ z zs, splitNl cs = z :: zs := by
        cases hs : splitNl cs with
        | nil => exact absurd hs hne
        | cons z zs => exact ⟨z, zs, rfl⟩
      rw [hz]
      rfl

theorem dropWhile_eq_self_of_head (p : Char → Bool) (l : Str)
    (h : ∀ c, l.head? = some c → p c = false) : l.dropWhile p = l := by
  cases l with
  | nil => rfl
  | cons a t =>
    rw [List.dropWhile_cons, h a rfl]
    simp

theorem pyStrip_eq_self (l : Str)
    (hh : ∀ c, l.head? = some c → isPySpace c = false)
    (hl : ∀ c, l.getLast? = some c → isPySpace c = false) : pyStrip l = l := by
  unfold pyStrip
  rw [dropWhile_eq_self_of_head _ _ hh]
  rw [dropWhile_eq_self_of_head _ _ fun c hc => hl c (by rwa [List.head?_reverse] at hc)]
  exact List.reverse_reverse l

theorem pyStrip_length_le (l : Str) : (pyStrip l).length ≤ l.length := by
  unfold pyStrip
  have h1 := (List.dropWhile_sublist isPySpace (l := l)).length_le
  have h2 := (List.dropWhile_sublist isPySpace
    (l := (l.dropWhile isPySpace).reverse)).length_le
  simp only [List.length_reverse] at h2 ⊢
  omega

theorem stripped_head_not_space (l : Str) (hne : l ≠ []) (hs : pyStrip l = l) :
    ∀ c, l.head? = some c → isPySpace c = false := by
  intro c hc
  by_contra hsp
  simp only [Bool.not_eq_false] at hsp
  obtain ⟨t, rfl⟩ : ∃ t, l = c :: t := by
    cases l with
    | nil => exact absurd rfl hne
    | cons a t =>
      refine ⟨t, ?_⟩
      injection hc with h
      rw [h]
  have hlen : (pyStrip (c :: t)).length ≤ t.length := by
    unfold pyStrip
    rw [List.dropWhile_cons, if_pos hsp]
    have h1 := (List.dropWhile_sublist isPySpace (l := t)).length_le
    have h2 := (List.dropWhile_sublist isPySpace
      (l := (t.dropWhile isPySpace).reverse)).length_le
    simp only [List.length_reverse] at h2 ⊢
    omega
  rw [hs] at hlen
  simp at hlen

theorem stripped_last_not_space (l : Str) (hne : l ≠ []) (hs : pyStrip l = l) :
    ∀ c, l.getLast? = some c → isPySpace c = false := by
  intro c hc
  by_contra hsp
  simp only [Bool.not_eq_false] at hsp
  rcases hA : l.dropWhile isPySpace with _ | ⟨a, t⟩
  · have h0 : pyStrip l = [] := by
      unfold pyStrip
      rw [hA]
      rfl
    rw [hs] at h0
    exact hne h0
  · obtain ⟨pre, hpre⟩ := List.dropWhile_suffix (l := l) isPySpace
    have hlast : (l.dropWhile isPySpace).getLast? = some c := by
      rw [← hpre] at hc
      rwa [List.getLast?_append_of_ne_nil pre (by rw [hA]; simp)] at hc
    have hrev : (l.dropWhile isPySpace).reverse.head? = some c := by
      rw [List.head?_reverse]
      exact hlast
    have hshrink : ((l.dropWhile isPySpace).reverse.dropWhile isPySpace).length
        < (l.dropWhile isPySpace).reverse.length := by
      cases hrv : (l.dropWhile isPySpace).reverse with
      | nil =>
        rw [hrv] at hrev
        cases hrev
      | cons b u =>
        have hbc : b = c := by
          rw [hrv] at hrev
          injection hrev
        rw [List.dropWhile_cons, hbc, if_pos hsp]
        have := (List.dropWhile_sublist isPySpace (l := u)).length_le
        simp only [List.length_cons]
        omega
    have hlt : (pyStrip l).length < l.length := by
      unfold pyStrip
      have h1 := (List.dropWhile_sublist isPySpace (l := l)).length_le
      simp only [List.length_reverse] at hshrink ⊢
      omega
    rw [hs] at hlt
    omega

theorem dropWhile_head_false (p : Char → Bool) :
    ∀ (l : Str) (c : Char) (t : Str), l.dropWhile p = c :: t → p c = false := by
  intro l
  induction l with
  | nil => intro c t h; cases h
  | cons a u ih =>
    intro c t h
    rw [List.dropWhile_cons] at h
    by_cases hp : p a
    · rw [if_pos hp] at h
      exact ih c t h
    · rw [if_neg hp] at h
      injection h with h1 _
      rw [← h1]
      simpa using hp

theorem pyStrip_last_not_space (l : Str) :
    ∀ c, (pyStrip l).getLast? = some c → isPySpace c = false := by
  intro c hc
  unfold pyStrip at hc
  rw [List.getLast?_reverse] at hc
  rcases hB : (l.dropWhile isPySpace).reverse.dropWhile isPySpace with _ | ⟨b, u⟩
  · rw [hB] at hc
    cases hc
  · rw [hB] at hc
    injection hc with h1
    rw [← h1]
    exact dropWhile_head_false isPySpace _ b u hB

theorem pyStrip_head_not_space (l : Str) :
    ∀ c, (pyStrip l).head? = some c → isPySpace c = false := by
  intro c hc
  unfold pyStrip at hc
  rw [List.head?_reverse] at hc
  obtain ⟨pre, hpre⟩ :=
    List.dropWhile_suffix (l := (l.dropWhile isPySpace).reverse) isPySpace
  have hne : (l.dropWhile isPySpace).reverse.dropWhile isPySpace ≠ [] := by
    intro h0
    rw [h0] at hc
    cases hc
  have hlast : (l.dropWhile isPySpace).reverse.getLast? = some c := by
    rw [← hpre, List.getLast?_append_of_ne_nil pre hne]
    exact hc
  rw [List.getLast?_reverse] at hlast
  rcases hAe : l.dropWhile isPySpace with _ | ⟨a, t⟩
  · rw [hAe] at hlast
    cases hlast
  · rw [hAe] at hlast
    injection hlast with h1
    rw [← h1]
    exact dropWhile_head_false isPySpace l a t hAe

theorem pyStrip_idem (l : Str) : pyStrip (pyStrip l) = pyStrip l :=
  pyStrip_eq_self _ (pyStrip_head_not_space l) (pyStrip_last_not_space l)

theorem mem_pyStrip (a : Char) (l : Str) (h : a ∈ pyStrip l) : a ∈ l := by
  unfold pyStrip at h
  rw [List.mem_reverse] at h
  have h2 := (List.dropWhile_sublist isPySpace
    (l := (l.dropWhile isPySpace).reverse)).subset h
  rw [List.mem_reverse] at h2
  exact (List.dropWhile_sublist isPySpace (l := l)).subset h2

theorem intercalate_cons_ne (sep x : Str) (l : List Str) (h : l ≠ []) :
    List.intercalate sep (x :: l) = x ++ sep ++ List.intercalate sep l := by
  obtain ⟨y, rest, rfl⟩ : ∃ y rest, l = y :: rest := by
    cases l with
    | nil => exact absurd rfl h
    | cons y rest => exact ⟨y, rest, rfl⟩
  show (List.intersperse sep (x :: y :: rest)).flatten = _
  rw [show List.intersperse sep (x :: y :: rest)
      = x :: sep :: List.intersperse sep (y :: rest) from rfl,
    List.flatten_cons, List.flatten_cons,
    show List.intercalate sep (y :: rest)
      = (List.intersperse sep (y :: rest)).flatten from rfl]
  simp [List.append_assoc]

theorem intercalate_cons_ne_nil (z : Str) (rest : List Str) (hz : z ≠ []) :
    List.intercalate ['\n'] (z :: rest) ≠ [] := by
  cases rest with
  | nil =>
    rw [intercalate_single]
    exact hz
  | cons w r2 =>
    rw [intercalate_cons_ne _ _ _ (by simp)]
    simp [hz]

theorem head?_intercalate (x : Str) (l : List Str) (hx : x ≠ []) :
    (List.intercalate ['\n'] (x :: l)).head? = x.head? := by
  cases l with
  | nil => rw [intercalate_single]
  | cons y rest =>
    rw [intercalate_cons_ne _ _ _ (by simp), List.append_assoc]
    cases x with
    | nil => exact absurd rfl hx
    | cons a t => rfl

theorem getLast?_intercalate :
    ∀ (l : List Str) (y : Str), l.getLast? = some y → (∀ x ∈ l, x ≠ []) →
      (List.intercalate ['\n'] l).getLast? = y.getLast? := by
  intro l
  induction l with
  | nil => intro y hy _; cases hy
  | cons x rest ih =>
    intro y hy hall
    cases hr : rest with
    | nil =>
      subst hr
      simp only [List.getLast?_singleton] at hy
      injection hy with hy1
      rw [intercalate_single, hy1]
    | cons z rest2 =>
      subst hr
      have hy2 : (z :: rest2).getLast? = some y := by
        rwa [List.getLast?_cons_cons] at hy
      have hz : z ≠ [] := hall z (by simp)
      rw [intercalate_cons_ne _ _ _ (by simp), List.append_assoc,
        List.getLast?_append_of_ne_nil x (by simp),
        List.getLast?_append_of_ne_nil ['\n'] (intercalate_cons_ne_nil z rest2 hz)]
      exact ih y hy2 fun w hw => hall w (List.mem_cons_of_mem _ hw)

theorem mem_of_getLast?_eq {α : Type} {l : List α} {a : α}
    (h : l.getLast? = some a) : a ∈ l := by
  induction l with
  | nil => cases h
  | cons x rest ih =>
    cases hr : rest with
    | nil =>
      subst hr
      simp only [List.getLast?_singleton] at h
      injection h with h1
      simp [h1]
    | cons z r2 =>
      subst hr
      rw [List.getLast?_cons_cons] at h
      exact List.mem_cons_of_mem _ (ih h)

theorem pyStrip_intercalate_clean (lines : List Str) (hne : lines ≠ [])
    (hclean : ∀ l ∈ lines, CleanLine l) :
    pyStrip (List.intercalate ['\n'] lines) = List.intercalate ['\n'] lines := by
  obtain ⟨x, rest, rfl⟩ : ∃ x rest, lines = x :: rest := by
    cases lines with
    | nil => exact absurd rfl hne
    | cons x rest => exact ⟨x, rest, rfl⟩
  have hx := hclean x (by simp)
  apply pyStrip_eq_self
  · intro c hc
    rw [head?_intercalate x rest hx.2.1] at hc
    exact stripped_head_not_space x hx.2.1 hx.1 c hc
  · intro c hc
    obtain ⟨y, hy⟩ : ∃ y, (x :: rest).getLast? = some y := by
      cases hgl : (x :: rest).getLast? with
      | none => simp [List.getLast?_eq_none_iff] at hgl
      | some y => exact ⟨y, rfl⟩
    have hymem : y ∈ x :: rest := mem_of_getLast?_eq hy
    have hyc := hclean y hymem
    rw [getLast?_intercalate _ y hy fun z hz => (hclean z hz).2.1] at hc
    exact stripped_last_not_space y hyc.2.1 hyc.1 c hc

theorem joinContent_clean (lines : List Str) (hne : lines ≠ [])
    (hclean : ∀ l ∈ lines, CleanLine l) :
    joinContent lines = List.intercalate ['\n'] lines := by
  unfold joinContent
  exact pyStrip_intercalate_clean lines hne hclean

theorem splitNl_intercalate (lines : List Str) (hne : lines ≠ [])
    (hnl : ∀ l ∈ lines, '\n' ∉ l) :
    splitNl (List.intercalate ['\n'] lines) = lines := by
  induction lines with
  | nil => exact absurd rfl hne
  | cons x rest ih =>
    cases hr : rest with
    | nil =>
      subst hr
      rw [intercalate_single]
      exact splitNl_eq_single x (hnl x (by simp))
    | cons y rest2 =>
      subst hr
      rw [intercalate_cons_ne _ _ _ (by simp), List.append_assoc,
        show ((['\n'] : Str) ++ List.intercalate ['\n'] (y :: rest2))
          = '\n' :: List.intercalate ['\n'] (y :: rest2) from rfl,
        splitNl_append x _, splitNl_eq_single x (hnl x (by simp))]
      rw [ih (by simp) fun z hz => hnl z (List.mem_cons_of_mem _ hz)]
      rfl

theorem splitNl_intercalate_flatten :
    ∀ (vals : List Str), vals ≠ [] →
      splitNl (List.intercalate ['\n'] vals) = (vals.map splitNl).flatten := by
  intro vals
  induction vals with
  | nil => intro h; exact absurd rfl h
  | cons v rest ih =>
    intro _
    cases hr : rest with
    | nil =>
      subst hr
      rw [intercalate_single]
      simp
    | cons w rest2 =>
      subst hr
      rw [intercalate_cons_ne _ _ _ (by simp), List.append_assoc,
        show ((['\n'] : Str) ++ List.intercalate ['\n'] (w :: rest2))
          = '\n' :: List.intercalate ['\n'] (w :: rest2) from rfl,
        splitNl_append v _, ih (by simp)]
      simp

theorem St.set_set (x : St) (s : Sec) (a b : Str) :
    (St.set (St.set x s a) s b) = St.set x s b := by
  cases s <;> rfl

/-- Clamping `max(0.0, min(1.0, x))` lands in `[0, 1]`. -/
theorem clamp01_mem (x : ℚ) : 0 ≤ max 0 (min 1 x) ∧ max 0 (min 1 x) ≤ 1 :=
  ⟨le_max_left 0 _, max_le (by norm_num) (min_le_left 1 x)⟩

theorem St.get_set_same (x : St) (c : Sec) (v : Str) : (x.set c v).get c = v := by
  cases c <;> rfl

theorem St.get_set_ne (x : St) (c c' : Sec) (v : Str) (h : c' ≠ c) :
    (x.set c v).get c' = x.get c' := by
  cases c <;> cases c' <;> first | rfl | exact absurd rfl h

theorem St.ext_get (x y : St) (h : ∀ c, x.get c = y.get c) : x = y := by
  obtain ⟨x1, x2, x3, x4⟩ := x
  obtain ⟨y1, y2, y3, y4⟩ := y
  have h1 := h .title
  have h2 := h .precondition
  have h3 := h .steps
  have h4 := h .expected_result
  simp only [St.get] at h1 h2 h3 h4
  rw [h1, h2, h3, h4]

theorem splitNl_ne_nil (t : Str) : splitNl t ≠ [] := by
  induction t with
  | nil => simp [splitNl]
  | cons c cs _ =>
    rw [splitNl_cons]
    split_ifs <;> simp

theorem mem_splitNl_no_newline (t : Str) : ∀ x ∈ splitNl t, '\n' ∉ x := by
  induction t with
  | nil =>
    intro x hx
    simp only [splitNl, List.mem_singleton] at hx
    subst hx
    simp
  | cons c cs ih =>
    intro x hx
    rw [splitNl_cons] at hx
    by_cases hc : c = '\n'
    · rw [if_pos hc] at hx
      rcases List.mem_cons.mp hx with rfl | hx3
      · simp
      · exact ih x hx3
    · rw [if_neg hc] at hx
      obtain ⟨z, zs, hz⟩ : ∃ z zs, splitNl cs = z :: zs := by
        cases hs : splitNl cs with
        | nil => exact absurd hs (splitNl_ne_nil cs)
        | cons z zs => exact ⟨z, zs, rfl⟩
      rw [hz] at hx
      simp only [List.headI, List.tail_cons] at hx
      rcases List.mem_cons.mp hx with rfl | hx3
      · intro hnl
        rcases List.mem_cons.mp hnl with h1 | h2
        · exact hc h1.symm
        · exact ih z (by rw [hz]; exact List.mem_cons_self z zs) h2
      · exact ih x (by rw [hz]; exact List.mem_cons_of_mem z hx3)

theorem cleanLines_all_clean (t : Str) : ∀ l ∈ cleanLines t, CleanLine l := by
  intro l hl
  unfold cleanLines at hl
  rw [List.mem_filter] at hl
  obtain ⟨hmem, hne⟩ := hl
  rw [List.mem_map] at hmem
  obtain ⟨x, hx, rfl⟩ := hmem
  refine ⟨pyStrip_idem x, by simpa [List.isEmpty_iff] using hne, ?_⟩
  intro hnl
  exact mem_splitNl_no_newline t x hx (mem_pyStrip _ _ hnl)

/-- Flushing preserves the `GoodBlock` invariant on every key. -/
theorem flushSt_good (cur : Option Sec) (content : List Str) (acc : St)
    (hcontent : ∀ c, cur = some c →
      ∃ h rest, content = h :: rest ∧ CleanLine h ∧ (∀ l ∈ rest, CleanLine l) ∧
        detect_section h = some c ∧ ∀ l ∈ rest, detect_section l = none)
    (hacc : ∀ c, acc.get c ≠ [] → GoodBlock c (acc.get c)) :
    ∀ c, (flushSt cur content acc).get c ≠ [] →
      GoodBlock c ((flushSt cur content acc).get c) := by
  intro c
  cases hcur : cur with
  | none => simpa [flushSt] using hacc c
  | some c0 =>
    obtain ⟨h, rest, hcont, hch, hcr, hdh, hdr⟩ := hcontent c0 hcur
    simp only [flushSt]
    by_cases hcc : c = c0
    · subst hcc
      rw [St.get_set_same]
      intro _
      rw [hcont]
      rw [joinContent_clean (h :: rest) (by simp) (by
        intro z hz
        rcases List.mem_cons.mp hz with rfl | hz2
        · exact hch
        · exact hcr z hz2)]
      exact ⟨h, rest, rfl, hch, hcr, hdh, hdr⟩
    · rw [St.get_set_ne _ _ _ _ hcc]
      exact hacc c

/-- The parser loop only ever stores `GoodBlock`-shaped section values. -/
theorem extractLoop_good (ls : List Str) :
    ∀ (cur : Option Sec) (content : List Str) (acc : St),
    (∀ l ∈ ls, CleanLine l) →
    (∀ c, cur = some c →
      ∃ h rest, content = h :: rest ∧ CleanLine h ∧ (∀ l ∈ rest, CleanLine l) ∧
        detect_section h = some c ∧ ∀ l ∈ rest, detect_section l = none) →
    (∀ c, acc.get c ≠ [] → GoodBlock c (acc.get c)) →
    ∀ c, (extractLoop cur content acc ls).get c ≠ [] →
      GoodBlock c ((extractLoop cur content acc ls).get c) := by
  induction ls with
  | nil =>
    intro cur content acc _ hcontent hacc
    exact flushSt_good cur content acc hcontent hacc
  | cons l ls2 ih =>
    intro cur content acc hls hcontent hacc
    have hl : CleanLine l := hls l (by simp)
    have hls2 : ∀ z ∈ ls2, CleanLine z := fun z hz => hls z (List.mem_cons_of_mem _ hz)
    cases hdet : detect_section l with
    | some sec =>
      simp only [extractLoop, hdet]
      apply ih (some sec) [l] (flushSt cur content acc) hls2
      · intro c hc
        injection hc with hc1
        subst hc1
        exact ⟨l, [], rfl, hl, by simp, hdet, by simp⟩
      · exact flushSt_good cur content acc hcontent hacc
    | none =>
      simp only [extractLoop, hdet]
      apply ih cur (if cur.isSome then content ++ [l] else content) acc hls2
      · intro c hc
        obtain ⟨h, rest, hcont, hch, hcr, hdh, hdr⟩ := hcontent c hc
        rw [if_pos (by rw [hc]; rfl), hcont]
        refine ⟨h, rest ++ [l], rfl, hch, ?_, hdh, ?_⟩
        · intro z hz
          rcases List.mem_append.mp hz with hz1 | hz2
          · exact hcr z hz1
          · rw [List.mem_singleton.mp hz2]
            exact hl
        · intro z hz
          rcases List.mem_append.mp hz with hz1 | hz2
          · exact hdr z hz1
          · rw [List.mem_singleton.mp hz2]
            exact hdet
      · exact hacc

/-- Every non-empty section extracted from any text is a good block. -/
theorem extract_structure_good (t : Str) :
    ∀ c, (extract_structure t).get c ≠ [] → GoodBlock c ((extract_structure t).get c) := by
  unfold extract_structure
  apply extractLoop_good
  · exact cleanLines_all_clean t
  · intro c hc
    cases hc
  · intro c hc
    exfalso
    apply hc
    cases c <;> rfl

/-- Lines detecting no section are appended to the open span. -/
theorem extractLoop_skip (rest : List Str) :
    ∀ (ls content : List Str) (c : Sec) (acc : St),
    (∀ l ∈ rest, detect_section l = none) →
    extractLoop (some c) content acc (rest ++ ls)
      = extractLoop (some c) (content ++ rest) acc ls := by
  induction rest with
  | nil => intro ls content c acc _; simp
  | cons l rest2 ih =>
    intro ls content c acc hr
    rw [List.cons_append]
    simp only [extractLoop, hr l (by simp), Option.isSome_some, if_pos]
    rw [ih ls (content ++ [l]) c acc fun z hz => hr z (List.mem_cons_of_mem _ hz)]
    rw [List.append_assoc]
    rfl

/-- Processing one block: flush, then accumulate the whole block. -/
theorem extractLoop_block (h : Str) (rest ls : List Str) (c : Sec)
    (cur : Option Sec) (content : List Str) (acc : St)
    (hdh : detect_section h = some c) (hdr : ∀ l ∈ rest, detect_section l = none) :
    extractLoop cur content acc ((h :: rest) ++ ls)
      = extractLoop (some c) (h :: rest) (flushSt cur content acc) ls := by
  rw [List.cons_append]
  simp only [extractLoop, hdh]
  rw [extractLoop_skip rest ls [h] c (flushSt cur content acc) hdr]
  rfl

/-- Processing a concatenation of blocks folds their joins into the
structure. -/
theorem extractLoop_blocks (bs : List (Sec × List Str)) :
    ∀ (cur : Option Sec) (content : List Str) (acc : St),
    (∀ b ∈ bs, ∃ h rest, b.2 = h :: rest ∧ detect_section h = some b.1 ∧
        ∀ l ∈ rest, detect_section l = none) →
    extractLoop cur content acc ((bs.map Prod.snd).flatten)
      = bs.foldl (fun a b => a.set b.1 (joinContent b.2)) (flushSt cur content acc) := by
  induction bs with
  | nil => intro cur content acc _; rfl
  | cons b bs2 ih =>
    intro cur content acc hb
    obtain ⟨h, rest, hb2, hdh, hdr⟩ := hb b (by simp)
    rw [List.map_cons, List.flatten_cons, hb2,
      extractLoop_block h rest _ b.1 cur content acc hdh hdr,
      ih (some b.1) (h :: rest) (flushSt cur content acc)
        fun z hz => hb z (List.mem_cons_of_mem _ hz)]
    rw [List.foldl_cons]
    have : flushSt (some b.1) (h :: rest) (flushSt cur content acc)
        = (flushSt cur content acc).set b.1 (joinContent b.2) := by
      rw [hb2]
      rfl
    rw [this]

/-- A good block splits back into exactly its lines, and re-joining
those lines restores the value. -/
theorem goodBlock_splitNl {c : Sec} {v : Str} (hg : GoodBlock c v) :
    ∃ h rest, splitNl v = h :: rest ∧ CleanLine h ∧ (∀ l ∈ rest, CleanLine l) ∧
      detect_section h = some c ∧ (∀ l ∈ rest, detect_section l = none) ∧
      joinContent (splitNl v) = v := by
  obtain ⟨h, rest, hv, hch, hcr, hdh, hdr⟩ := hg
  have hall : ∀ l ∈ h :: rest, CleanLine l := by
    intro l hl
    rcases List.mem_cons.mp hl with rfl | hl2
    · exact hch
    · exact hcr l hl2
  have hnl : ∀ l ∈ h :: rest, '\n' ∉ l := fun l hl => (hall l hl).2.2
  have hsv : splitNl v = h :: rest := by
    rw [hv]
    exact splitNl_intercalate _ (by simp) hnl
  refine ⟨h, rest, hsv, hch, hcr, hdh, hdr, ?_⟩
  rw [hsv, joinContent_clean (h :: rest) (by simp) hall, ← hv]

theorem blocksOf_map_snd (e : St) :
    (blocksOf e).map Prod.snd
      = ((canonicalSecs.map e.get).filter fun v => !v.isEmpty).map splitNl := by
  unfold blocksOf canonicalSecs
  by_cases h1 : e.get .title = [] <;>
    by_cases h2 : e.get .precondition = [] <;>
      by_cases h3 : e.get .steps = [] <;>
        by_cases h4 : e.get .expected_result = [] <;>
          simp [h1, h2, h3, h4, List.isEmpty_iff]

theorem blocksOf_spec (e : St) (hg : ∀ c, e.get c ≠ [] → GoodBlock c (e.get c)) :
    ∀ b ∈ blocksOf e, ∃ h rest, b.2 = h :: rest ∧ detect_section h = some b.1 ∧
      ∀ l ∈ rest, detect_section l = none := by
  intro b hb
  unfold blocksOf at hb
  rw [List.mem_filterMap] at hb
  obtain ⟨c, _, hc⟩ := hb
  by_cases he : (e.get c).isEmpty
  · rw [if_pos he] at hc
    cases hc
  · rw [if_neg he] at hc
    injection hc with hc1
    subst hc1
    have hne : e.get c ≠ [] := by simpa [List.isEmpty_iff] using he
    obtain ⟨h, rest, hsv, _, _, hdh, hdr, _⟩ := goodBlock_splitNl (hg c hne)
    exact ⟨h, rest, hsv, hdh, hdr⟩

theorem map_strip_filter_fixed (L : List Str) (h : ∀ l ∈ L, CleanLine l) :
    (L.map pyStrip).filter (fun l => !l.isEmpty) = L := by
  induction L with
  | nil => rfl
  | cons x rest ih =>
    have hx := h x (by simp)
    rw [List.map_cons, List.filter_cons, hx.1]
    have hxe : x.isEmpty = false := by simp [List.isEmpty_iff, hx.2.1]
    rw [hxe]
    rw [ih fun z hz => h z (List.mem_cons_of_mem _ hz)]
    rfl

theorem cleanLines_rejoin (e : St) (hg : ∀ c, e.get c ≠ [] → GoodBlock c (e.get c)) :
    cleanLines (rejoinStructure e) = ((blocksOf e).map Prod.snd).flatten := by
  rw [blocksOf_map_snd]
  unfold rejoinStructure
  set vals := (canonicalSecs.map e.get).filter fun v => !v.isEmpty with hvals
  have hvmem : ∀ v ∈ vals, ∃ c, v = e.get c ∧ v ≠ [] := by
    intro v hv
    rw [hvals, List.mem_filter] at hv
    obtain ⟨hv1, hv2⟩ := hv
    rw [List.mem_map] at hv1
    obtain ⟨c, _, rfl⟩ := hv1
    exact ⟨c, rfl, by simpa [List.isEmpty_iff] using hv2⟩
  cases hv0 : vals with
  | nil => rfl
  | cons v vs =>
    rw [← hv0]
    have hvne : vals ≠ [] := by rw [hv0]; simp
    have hlines : ∀ w ∈ vals, ∀ l ∈ splitNl w, CleanLine l := by
      intro w hw
      obtain ⟨c, rfl, hne⟩ := hvmem w hw
      obtain ⟨h, rest, hsv, hch, hcr, _, _, _⟩ := goodBlock_splitNl (hg c hne)
      rw [hsv]
      intro l hl
      rcases List.mem_cons.mp hl with rfl | hl2
      · exact hch
      · exact hcr l hl2
    unfold cleanLines
    rw [splitNl_intercalate_flatten vals hvne]
    apply map_strip_filter_fixed
    intro l hl
    rw [List.mem_flatten] at hl
    obtain ⟨L, hL, hlL⟩ := hl
    rw [List.mem_map] at hL
    obtain ⟨w, hw, rfl⟩ := hL
    exact hlines w hw l hlL

theorem foldl_filterMap_set (secs : List Sec) (e : St) :
    ∀ acc : St,
    (∀ c, joinContent (splitNl (e.get c)) = e.get c) →
    (∀ c, c ∉ secs → acc.get c = e.get c) →
    (∀ c ∈ secs, (e.get c).isEmpty → acc.get c = e.get c) →
    (secs.filterMap fun c =>
        if (e.get c).isEmpty then none else some (c, splitNl (e.get c))).foldl
      (fun a b => a.set b.1 (joinContent b.2)) acc = e := by
  induction secs with
  | nil =>
    intro acc _ hacc _
    apply St.ext_get
    intro c
    exact hacc c (by simp)
  | cons c0 rest ih =>
    intro acc hjoin hacc hacc2
    by_cases h0 : (e.get c0).isEmpty
    · rw [List.filterMap_cons_none (by rw [if_pos h0])]
      apply ih acc hjoin
      · intro c hc
        by_cases hcc : c = c0
        · subst hcc
          exact hacc2 c (by simp) h0
        · refine hacc c ?_
          intro hmem
          rcases List.mem_cons.mp hmem with h | h
          · exact hcc h
          · exact hc h
      · intro c hc he
        exact hacc2 c (List.mem_cons_of_mem _ hc) he
    · rw [List.filterMap_cons_some (by rw [if_neg h0]), List.foldl_cons]
      have hstep : (acc.set (c0, splitNl (e.get c0)).1
            (joinContent (c0, splitNl (e.get c0)).2)) = acc.set c0 (e.get c0) := by
        dsimp only
        rw [hjoin c0]
      rw [hstep]
      apply ih (acc.set c0 (e.get c0)) hjoin
      · intro c hc
        by_cases hcc : c = c0
        · subst hcc
          rw [St.get_set_same]
        · rw [St.get_set_ne _ _ _ _ hcc]
          refine hacc c ?_
          intro hmem
          rcases List.mem_cons.mp hmem with h | h
          · exact hcc h
          · exact hc h
      · intro c hc he
        by_cases hcc : c = c0
        · subst hcc
          rw [St.get_set_same]
        · rw [St.get_set_ne _ _ _ _ hcc]
          exact hacc2 c (List.mem_cons_of_mem _ hc) he

theorem foldl_blocksOf (e : St)
    (hjoin : ∀ c, joinContent (splitNl (e.get c)) = e.get c) :
    (blocksOf e).foldl (fun a b => a.set b.1 (joinContent b.2)) emptySt = e := by
  apply foldl_filterMap_set canonicalSecs e emptySt hjoin
  · intro c hc
    exfalso
    apply hc
    cases c <;> simp [canonicalSecs]
  · intro c _ he
    rw [List.isEmpty_iff.mp he]
    cases c <;> rfl

/-! ## Claim C9 — structure parsing is idempotent -/

/-- C9: re-parsing the newline join of the non-empty sections of an
extracted structure (in canonical order) reproduces the structure
exactly: the same non-empty sections with the same contents, and the
empty sections stay empty. -/
theorem C9_extract_structure_idempotent (t : Str) :
    extract_structure (rejoinStructure (extract_structure t)) = extract_structure t := by
  have hg := extract_structure_good t
  have key1 := cleanLines_rejoin (extract_structure t) hg
  have key2 := blocksOf_spec (extract_structure t) hg
  have hjoin : ∀ c, joinContent (splitNl ((extract_structure t).get c))
      = (extract_structure t).get c := by
    intro c
    by_cases hc : (extract_structure t).get c = []
    · rw [hc]
      rfl
    · obtain ⟨h, rest, _, _, _, _, _, hj⟩ := goodBlock_splitNl (hg c hc)
      exact hj
  calc extract_structure (rejoinStructure (extract_structure t))
      = extractLoop none [] emptySt (cleanLines (rejoinStructure (extract_structure t))) :=
        rfl
    _ = extractLoop none [] emptySt
          (((blocksOf (extract_structure t)).map Prod.snd).flatten) := by rw [key1]
    _ = (blocksOf (extract_structure t)).foldl
          (fun a b => a.set b.1 (joinContent b.2)) emptySt :=
        extractLoop_blocks _ none [] emptySt key2
    _ = extract_structure t := foldl_blocksOf _ hjoin

/-! ## Claim C5 — uniqueness quality-level thresholds -/

unseal Rat.add Rat.mul Rat.inv Rat.sub Rat.ofScientific in
/-- C5 counterexample: at `diversity = deduplication = 0.85` the claim
predicts the label `优秀` (excellent, threshold 0.85 as in the Quality
Scorer), but `UniquenessMetric._get_quality_level` returns `良好`, while
`QualityMetric._get_quality_level` at 0.85 does return `优秀`. -/
theorem C5_counterexample :
    uniq_get_quality_level 0.85 0.85 = "良好" ∧
      uniq_get_quality_level 0.85 0.85 ≠ "优秀" ∧
      quality_get_quality_level 0.85 = "优秀" := by decide

/-- C5 (corrected): the uniqueness quality level buckets the mean of
diversity score and deduplication rate at thresholds 0.9 / 0.75 / 0.6 —
not the Quality Scorer's 0.85 / 0.7 / 0.5. -/
theorem C5_uniq_quality_level_buckets (d r : ℚ) :
    (uniq_get_quality_level d r = "优秀" ↔ 0.9 ≤ (d + r) / 2) ∧
      (uniq_get_quality_level d r = "良好" ↔ 0.75 ≤ (d + r) / 2 ∧ (d + r) / 2 < 0.9) ∧
      (uniq_get_quality_level d r = "中等" ↔ 0.6 ≤ (d + r) / 2 ∧ (d + r) / 2 < 0.75) ∧
      (uniq_get_quality_level d r = "需改进" ↔ (d + r) / 2 < 0.6) := by
  unfold uniq_get_quality_level
  dsimp only
  split_ifs with h1 h2 h3 <;>
    refine ⟨?_, ?_, ?_, ?_⟩ <;> constructor <;> intro hx <;>
      first
        | rfl
        | linarith
        | (exact absurd hx (by decide))
        | (constructor <;> linarith)

/-! ## Claim C7 — steps rubric and dash-marked sub-items -/

unseal Rat.add Rat.mul Rat.inv Rat.sub Rat.ofScientific in
/-- C7 counterexample: a steps section of 57 characters whose two
sub-items are marked by a leading dash (so the Quality Scorer's
step pattern, which includes `^-\s+`, counts 2) scores 0.4, not the
claimed maximum 1.0, in `StructureMetric.check_element_quality` (whose
pattern `\d+\.|步骤\d+` has no dash alternative). -/
theorem C7_counterexample :
    2 ≤ countQualitySteps true
        (str "- abcdefghijklmnopqrstuvwxyz\n- abcdefghijklmnopqrstuvwxyz") ∧
      50 ≤ (pyStrip (str "- abcdefghijklmnopqrstuvwxyz\n- abcdefghijklmnopqrstuvwxyz")).length ∧
      check_element_quality
          ⟨[], [], str "- abcdefghijklmnopqrstuvwxyz\n- abcdefghijklmnopqrstuvwxyz", []⟩
          Sec.steps = 0.4 := by decide

/-- C7 (corrected): the Structure Scorer counts only `\d+\.` and
`步骤\d+` sub-items — dash-marked items are not counted.  For steps
content of at least 50 characters with at least two such numbered
items, the steps quality score is the maximum 1.0. -/
theorem C7_steps_quality_max_without_dashes (st : St)
    (hne : st.steps ≠ [])
    (hlen : 50 ≤ (pyStrip st.steps).length)
    (hcount : 2 ≤ countStepTokens st.steps) :
    check_element_quality st Sec.steps = 1 := by
  unfold check_element_quality
  rw [if_neg (by simpa [St.get, List.isEmpty_iff] using hne)]
  simp only [St.get]
  rw [if_pos ⟨hlen, hcount⟩]

/-- Witness for `C7_steps_quality_max_without_dashes`. -/
theorem C7_witness :
    check_element_quality
        ⟨[], [], str "1. aaaaaaaaaaaaaaaaaaaaaaaa\n2. bbbbbbbbbbbbbbbbbbbbbbbb", []⟩
        Sec.steps = 1 :=
  C7_steps_quality_max_without_dashes _ (by decide) (by decide) (by decide)

/-! ## Claim C6 — repeated section keywords within a contiguous run -/

/-- C6 counterexample: two consecutive lines both matching the `steps`
keyword do *not* merge; the later line overwrites the earlier one. -/
theorem C6_counterexample :
    (extract_structure (str "步骤 one\n步骤 two")).steps = str "步骤 two" ∧
      (extract_structure (str "步骤 one\n步骤 two")).steps ≠ str "步骤 one\n步骤 two" := by
  decide

/-- C6 (corrected): every keyword-matching line starts a new span, even
inside a contiguous run of lines matching the same keyword; the later
span overwrites the earlier one for that key (last match wins), so the
section ends up holding only the last matching line. -/
theorem C6_same_keyword_contiguous_overwrite (l1 l2 : Str) (s : Sec)
    (h1 : pyStrip l1 = l1) (h2 : pyStrip l2 = l2)
    (n1 : l1 ≠ []) (n2 : l2 ≠ [])
    (m1 : '\n' ∉ l1) (m2 : '\n' ∉ l2)
    (d1 : detect_section l1 = some s) (d2 : detect_section l2 = some s) :
    extract_structure (l1 ++ '\n' :: l2) = St.set emptySt s l2 := by
  have hclean : cleanLines (l1 ++ '\n' :: l2) = [l1, l2] := by
    unfold cleanLines
    rw [splitNl_append_cons l1 l2 m1, splitNl_eq_single l2 m2]
    simp [h1, h2, List.isEmpty_iff, n1, n2]
  unfold extract_structure
  rw [hclean]
  simp only [extractLoop, d1, d2, flushSt, joinContent, intercalate_single, h2]
  rw [St.set_set]

/-- Witness for `C6_same_keyword_contiguous_overwrite`. -/
theorem C6_witness :
    extract_structure (str "步骤 one" ++ '\n' :: str "步骤 two")
      = St.set emptySt Sec.steps (str "步骤 two") :=
  C6_same_keyword_contiguous_overwrite (str "步骤 one") (str "步骤 two") Sec.steps
    (by decide) (by decide) (by decide) (by decide) (by decide) (by decide)
    (by decide) (by decide)

/-! ## Claim C3 — independence siblings include the case itself -/

unseal Rat.add Rat.mul Rat.inv Rat.sub Rat.ofScientific in
/-- C3 (code bug): `Evaluator.evaluate_batch` passes the *full* batch —
including the case itself — as `other_cases`, so a single-case batch
scores independence 0.0 (the case has word-level Jaccard similarity 1
with itself), while `QualityMetric.check_independence` with a genuinely
empty sibling list returns the intended 1.0. -/
theorem C3_single_case_self_comparison :
    ((evaluate_batch [str "click the button"] none).individual_evaluations.map
        fun e => e.quality_details.independence_score) = [0] ∧
      check_independence (str "click the button") [] = 1 := by decide

/-! ## Claim C10 — requirements with empty keyword sets -/

/-- C10: a requirement whose extracted keyword set is empty is
unconditionally classified as uncovered, so any non-empty requirement
list containing one has coverage rate strictly below 1 — whatever the
test cases and threshold. -/
theorem C10_empty_keyword_requirement_uncovered
    (reqs cases : List Str) (threshold : ℚ)
    (hne : reqs ≠ [])
    (hex : ∃ r ∈ reqs, extract_keywords_from_requirement r = ∅) :
    (calculate_requirement_coverage reqs cases threshold).coverage_rate < 1 := by
  obtain ⟨r, hr, hk⟩ := hex
  have hcov : reqIsCovered r cases threshold = false := by
    unfold reqIsCovered
    rw [hk]
    simp
  unfold calculate_requirement_coverage
  rw [if_neg (by simpa [List.isEmpty_iff] using hne)]
  have hlt : (reqs.filter fun q => reqIsCovered q cases threshold).length < reqs.length := by
    refine List.length_filter_lt_length_iff_exists.mpr ⟨r, hr, ?_⟩
    simp [hcov]
  have hpos : (0 : ℚ) < reqs.length := by
    have : 0 < reqs.length := List.length_pos.mpr hne
    exact_mod_cast this
  rw [div_lt_one hpos]
  exact_mod_cast hlt

unseal Rat.add Rat.mul Rat.inv Rat.sub Rat.ofScientific in
/-- Witness for `C10_empty_keyword_requirement_uncovered`: the
requirement `可以` tokenizes to the single stop word `可以`, leaving an
empty keyword set, so even a case repeating the requirement verbatim
leaves the coverage rate below 1. -/
theorem C10_witness :
    (calculate_requirement_coverage [str "可以"] [str "可以"] 0.3).coverage_rate < 1 :=
  C10_empty_keyword_requirement_uncovered [str "可以"] [str "可以"] 0.3 (by decide)
    ⟨str "可以", by decide, by decide⟩

/-! ## Claim C4 — aggregation over present metrics only -/

theorem overall_score_structure_quality_uniqueness (s q u : ℚ) :
    calculate_overall_score ⟨s, q, u, none, none⟩ =
      (s * 0.2 + q * 0.25 + u * 0.1) / (0.2 + 0.25 + 0.1) := by
  unfold calculate_overall_score scoreMappingOrder
  simp only [List.foldl, AggScores.get, METRIC_WEIGHTS]
  rw [if_pos (by norm_num)]
  norm_num

/-- C4: with no PRD and no reference cases the aggregate map holds
exactly the structure, quality and uniqueness scores, and the overall
score is their weighted mean renormalised over the present weights
`(0.2, 0.25, 0.1)` — absent metrics are excluded from numerator and
denominator alike. -/
theorem C4_overall_score_no_prd_no_reference (cases : List Str) :
    (evaluate_batch cases none).overall_score =
      ((evaluate_batch cases none).aggregate_scores.avg_structure_score * 0.2
        + (evaluate_batch cases none).aggregate_scores.avg_quality_score * 0.25
        + (evaluate_batch cases none).aggregate_scores.uniqueness_score * 0.1)
        / (0.2 + 0.25 + 0.1) :=
  overall_score_structure_quality_uniqueness _ _ _

/-! ## Claim C8 — comparison symmetry -/

/-- C8: for any two batches (same optional PRD), the improvements map of
`compare_versions A B` equals the regressions map of
`compare_versions B A`: the same metric keys are present, with the same
positive magnitudes. -/
theorem C8_compare_versions_symmetry (a b : List Str) (prd : Option Str) :
    (compare_versions a b prd).improvements = (compare_versions b a prd).regressions := by
  funext k
  unfold compare_versions
  dsimp only
  cases h1 : (evaluate_batch a prd).aggregate_scores.get k with
  | none =>
    cases h2 : (evaluate_batch b prd).aggregate_scores.get k <;> simp [h1, h2]
  | some s1 =>
    cases h2 : (evaluate_batch b prd).aggregate_scores.get k with
    | none => simp [h1, h2]
    | some s2 =>
      simp only [h1, h2]
      by_cases hgt : 0 < s2 - s1
      · rw [if_pos hgt, if_pos (by linarith), abs_of_neg (show s1 - s2 < 0 by linarith)]
        congr 1
        ring
      · rw [if_neg hgt, if_neg (fun hc => hgt (by linarith))]

/-! ## Claim C2 — a batch of two byte-identical cases -/

theorem allPairs_two : allPairs 2 = [(0, 1)] := by decide

theorem exact_dups_pair (s : Str) : detect_exact_duplicates [s, s] = [(0, 1)] := by
  show List.filter _ (allPairs 2) = _
  rw [allPairs_two]
  simp [List.getD]

theorem near_dups_pair (s : Str) :
    detect_near_duplicates_by_keywords [s, s] 0.85 =
      if uniq_extract_keywords s = ∅ then [] else [(0, 1, 1)] := by
  show List.filterMap _ (allPairs 2) = _
  rw [allPairs_two]
  rw [List.filterMap_cons, List.filterMap_nil]
  dsimp only [List.getD_cons_zero, List.getD_cons_succ]
  by_cases hK : uniq_extract_keywords s = ∅
  · rw [if_pos (Or.inl hK), if_pos hK]
  · have hcard : 0 < (uniq_extract_keywords s ∪ uniq_extract_keywords s).card := by
      rw [Finset.union_self]
      exact Finset.card_pos.mpr (Finset.nonempty_iff_ne_empty.mpr hK)
    have hdiv :
        (((uniq_extract_keywords s ∩ uniq_extract_keywords s).card : ℚ)
          / ((uniq_extract_keywords s ∪ uniq_extract_keywords s).card : ℚ)) = 1 := by
      rw [Finset.inter_self, Finset.union_self]
      exact div_self (by exact_mod_cast (Finset.card_pos.mpr
        (Finset.nonempty_iff_ne_empty.mpr hK)).ne')
    rw [if_neg (by simp [hK]), if_pos hcard, if_neg hK]
    rw [hdiv]
    rw [if_pos (by norm_num)]

/-- C2 (corrected): for two byte-identical case strings the exact
duplicate count is 1 and the diversity score is 0.0, as claimed — but
the near-duplicate count is 1, not 0, whenever the shared keyword set
is non-empty: the pair is double-counted by the keyword fallback (its
Jaccard similarity 1 passes the 0.85 threshold), not skipped as
"already counted as exact". -/
theorem C2_two_identical_cases (s : Str) :
    (uniqueness_evaluate [s, s]).exact_duplicate_count = 1 ∧
      (uniqueness_evaluate [s, s]).near_duplicate_count =
        (if uniq_extract_keywords s = ∅ then 0 else 1) ∧
      (uniqueness_evaluate [s, s]).diversity_score = 0 := by
  have he := exact_dups_pair s
  have hn := near_dups_pair s
  refine ⟨?_, ?_, ?_⟩
  · show (detect_exact_duplicates [s, s]).length = 1
    rw [he]
    rfl
  · show (detect_near_duplicates_by_keywords [s, s] 0.85).length = _
    rw [hn]
    by_cases hK : uniq_extract_keywords s = ∅ <;> simp [hK]
  · show calculate_diversity_score [s, s] = 0
    unfold calculate_diversity_score
    rw [if_neg (by simp)]
    simp only [he, hn]
    rw [if_neg (by norm_num [maxPossiblePairs])]
    by_cases hK : uniq_extract_keywords s = ∅ <;>
      simp [hK, maxPossiblePairs, min_def, max_def] <;> norm_num

unseal Rat.add Rat.mul Rat.inv Rat.sub Rat.ofScientific in
/-- C2 counterexample: two byte-identical copies of `"ab cd"` (whose
keyword set `{ab, cd}` is non-empty) yield `near_duplicate_count = 1`,
not the claimed 0. -/
theorem C2_counterexample :
    (uniqueness_evaluate [str "ab cd", str "ab cd"]).near_duplicate_count = 1 ∧
      (uniqueness_evaluate [str "ab cd", str "ab cd"]).near_duplicate_count ≠ 0 := by decide

/-! ## Claim C1 — score ranges -/

unseal Rat.add Rat.mul Rat.inv Rat.sub Rat.ofScientific in
/-- C1 counterexample: on two byte-identical keyword-bearing cases the
pair is counted both as an exact and as a near duplicate, so
`deduplication_rate = 1 - 2/1 = -1 < 0`, outside `[0, 1]`. -/
theorem C1_counterexample :
    (uniqueness_evaluate [str "ab cd", str "ab cd"]).deduplication_rate = -1 ∧
      (uniqueness_evaluate [str "ab cd", str "ab cd"]).deduplication_rate < 0 := by decide

/-- C1 (corrected): the clamped scores of `UniquenessMetric.evaluate`
(diversity and scenario diversity) do lie in `[0, 1]` for every batch,
but `deduplication_rate` is not clamped: exact and near duplicates can
double-count each pair, so it only lies in `[-1, 1]`. -/
theorem C1_uniqueness_score_ranges (cases : List Str) :
    0 ≤ (uniqueness_evaluate cases).diversity_score ∧
      (uniqueness_evaluate cases).diversity_score ≤ 1 ∧
      -1 ≤ (uniqueness_evaluate cases).deduplication_rate ∧
      (uniqueness_evaluate cases).deduplication_rate ≤ 1 ∧
      0 ≤ (uniqueness_evaluate cases).scenario_diversity.diversity_score ∧
      (uniqueness_evaluate cases).scenario_diversity.diversity_score ≤ 1 := by
  have hdiv : 0 ≤ calculate_diversity_score cases ∧ calculate_diversity_score cases ≤ 1 := by
    unfold calculate_diversity_score
    dsimp only
    split_ifs with h1 h2
    · norm_num
    · norm_num
    · exact clamp01_mem _
  have hded : (uniqueness_evaluate cases).deduplication_rate =
      1 - (if 0 < maxPossiblePairs cases.length
           then (((detect_exact_duplicates cases).length
                  + (detect_near_duplicates_by_keywords cases 0.85).length : ℕ) : ℚ)
                / maxPossiblePairs cases.length
           else 0) := rfl
  have hscen : 0 ≤ (calculate_scenario_diversity cases).diversity_score ∧
      (calculate_scenario_diversity cases).diversity_score ≤ 1 := by
    unfold calculate_scenario_diversity
    dsimp only
    split_ifs with h
    · constructor
      · positivity
      · rw [div_le_one (by exact_mod_cast h)]
        have hle := le_trans
          (List.length_filter_le (fun p => decide (0 < p.2))
            (scenarioPatterns.map fun p => (p.1, (cases.filter fun t => containsAny t p.2).length)))
          (le_of_eq (List.length_map _ _))
        exact_mod_cast hle
    · norm_num
  have hrange : -1 ≤ (uniqueness_evaluate cases).deduplication_rate ∧
      (uniqueness_evaluate cases).deduplication_rate ≤ 1 := by
    rw [hded]
    split_ifs with hmp
    · have hn2 : 2 ≤ cases.length := by
        rcases hcl : cases.length with _ | n1
        · rw [hcl, maxPossiblePairs] at hmp; norm_num at hmp
        · rcases n1 with _ | n2
          · rw [hcl, maxPossiblePairs] at hmp; norm_num at hmp
          · omega
      have hcount : (detect_exact_duplicates cases).length
          + (detect_near_duplicates_by_keywords cases 0.85).length
          ≤ cases.length * (cases.length - 1) := by
        have he := List.length_filter_le
          (fun p => pyStrip (cases.getD p.1 []) == pyStrip (cases.getD p.2 []))
          (allPairs cases.length)
        have hnn := List.length_filterMap_le
          (fun p =>
            let ki := uniq_extract_keywords (cases.getD p.1 [])
            let kj := uniq_extract_keywords (cases.getD p.2 [])
            if ki = ∅ ∨ kj = ∅ then none
            else
              let inter := (ki ∩ kj).card
              let u := (ki ∪ kj).card
              if 0 < u then
                let sim := ((inter : ℚ)) / u
                if (0.85 : ℚ) ≤ sim then some (p.1, p.2, sim) else none
              else none)
          (allPairs cases.length)
        have h2l := length_allPairs cases.length
        calc (detect_exact_duplicates cases).length
              + (detect_near_duplicates_by_keywords cases 0.85).length
            ≤ (allPairs cases.length).length + (allPairs cases.length).length :=
              Nat.add_le_add he hnn
          _ = 2 * (allPairs cases.length).length := by omega
          _ = cases.length * (cases.length - 1) := h2l
      have hcast : ((cases.length * (cases.length - 1) : ℕ) : ℚ)
          = (cases.length : ℚ) * ((cases.length : ℚ) - 1) := by
        have h1n : (1 : ℕ) ≤ cases.length := by omega
        push_cast [Nat.cast_sub h1n]
        ring
      have hr2 : (((detect_exact_duplicates cases).length
            + (detect_near_duplicates_by_keywords cases 0.85).length : ℕ) : ℚ)
          / maxPossiblePairs cases.length ≤ 2 := by
        rw [div_le_iff₀ hmp]
        calc (((detect_exact_duplicates cases).length
              + (detect_near_duplicates_by_keywords cases 0.85).length : ℕ) : ℚ)
            ≤ ((cases.length * (cases.length - 1) : ℕ) : ℚ) := by exact_mod_cast hcount
          _ = (cases.length : ℚ) * ((cases.length : ℚ) - 1) := hcast
          _ = 2 * maxPossiblePairs cases.length := by rw [maxPossiblePairs]; ring
      have hr0 : (0 : ℚ) ≤ (((detect_exact_duplicates cases).length
            + (detect_near_duplicates_by_keywords cases 0.85).length : ℕ) : ℚ)
          / maxPossiblePairs cases.length := by positivity
      constructor <;> linarith
    · norm_num
  exact ⟨hdiv.1, hdiv.2, hrange.1, hrange.2, hscen.1, hscen.2⟩
example : detect_section (str "步骤 one") = some Sec.steps := by decide
example : detect_section (str "just text") = none := by decide
example :
    (extract_structure (str "标题1 t\n前置条件x\n步骤 one\nmore")).steps
      = str "步骤 one\nmore" := by decide

end BDEval
